import Mathlib

/-!
# Verification of the background-multimodal-llm backend

A shallow embedding, in Lean 4, of the pieces of the backend that the
specification's claims talk about:

* the speech-session accumulator of `backend/models/STT.py`
  (`SpeechSession`, `STTService.process_audio_with_vad`,
  `STTService._complete_current_session`);
* the per-utterance outbound-message flow of `backend/main.py`
  (`handle_audio_data`, `handle_transcription_with_screen_check`,
  `handle_screen_capture_response`, `check_text_for_screen_triggers`,
  `ConnectionManager.send_personal_message`);
* the tool-calling workflow's execute/retry nodes of
  `backend/models/enhanced_tool_calling.py`;
* the quality gate of `backend/models/enhanced_multimodal.py`;
* the tool handle of `backend/MCP/mcp_client/perplexity_tool_handle.py`;
* the Content-Length framed JSON-RPC transport of
  `backend/MCP/mcp_client/client.py` together with a model of the JSON
  codec it delegates to;
* the per-service statistics of `backend/services/performance_monitor.py`.

Python floats that only ever feed comparisons and arithmetic are embedded
as `ℚ`; Python lists as Lean lists; Python strings as `List Char`; Python
`None` / optional values as `Option`.  External effects (the Whisper API,
the Gemini LLM, the websocket, the tool child process) are inputs to the
embedded functions, never stubbed results.
-/

/-- `List Char` of a string literal, to write embedded Python strings. -/
def chars (s : String) : List Char := s.data

/-! ## Speech-session accumulator (`backend/models/STT.py`)

`SpeechSession.__init__` sets `audio_buffer = []`, `sample_rate = 16000`,
and `last_audio_timestamp = start_timestamp`.  The session id is
`f"{int(timestamp)}_{counter}"`, embedded as the pair of its parts. -/

structure SpeechSession where
  sessionId : Int × Nat
  startTimestamp : ℚ
  audioBuffer : List ℚ
  lastAudioTimestamp : ℚ
deriving Repr, DecidableEq

/-- Python `int(x)` on a float: truncation toward zero. -/
def pyTrunc (q : ℚ) : Int := if q ≥ 0 then ⌊q⌋ else -⌊-q⌋

/-- `SpeechSession.add_audio`: extend the buffer and move
`last_audio_timestamp` to the timestamp of this call. -/
def SpeechSession.addAudio (s : SpeechSession) (audioData : List ℚ) (timestamp : ℚ) :
    SpeechSession :=
  { s with audioBuffer := s.audioBuffer ++ audioData, lastAudioTimestamp := timestamp }

/-- `SpeechSession.get_duration`: seconds of buffered audio at 16 kHz. -/
def SpeechSession.getDuration (s : SpeechSession) : ℚ :=
  (s.audioBuffer.length : ℚ) / 16000

/-- The `AudioChunk` pydantic model (`data`, `sample_rate`, `timestamp`,
`chunk_id`); the chunk id `f"speech_session_{session_id}"` is embedded as
the session-id pair. -/
structure AudioChunk where
  data : List ℚ
  sampleRate : Nat
  timestamp : ℚ
  chunkId : Int × Nat
deriving Repr, DecidableEq

/-- `SpeechSession.to_audio_chunk`. -/
def SpeechSession.toAudioChunk (s : SpeechSession) : AudioChunk :=
  { data := s.audioBuffer, sampleRate := 16000,
    timestamp := s.startTimestamp, chunkId := s.sessionId }

/-- The fields of `STTConfig` that drive session completion. -/
structure STTConfig where
  minSpeechDuration : ℚ := 1/2
  maxSpeechDuration : ℚ := 30
deriving Repr, DecidableEq

/-- The session-management state of `STTService`
(`current_session`, `session_counter`). -/
structure STTState where
  currentSession : Option SpeechSession
  sessionCounter : Nat
deriving Repr, DecidableEq

/-- `STTService._complete_current_session`: discard a too-short session,
otherwise emit its audio chunk; either way clear `current_session`. -/
def completeCurrentSession (cfg : STTConfig) (st : STTState) :
    STTState × Option AudioChunk :=
  match st.currentSession with
  | none => (st, none)
  | some s =>
    if s.getDuration < cfg.minSpeechDuration then
      ({ st with currentSession := none }, none)
    else
      ({ st with currentSession := none }, some s.toAudioChunk)

/-- `STTService.process_audio_with_vad`, line for line:

* when VAD says speaking and no session is active, open one;
* when a session is active, `add_audio` first (which moves
  `last_audio_timestamp` to `timestamp`), then compute the duration and
  `time_gap = timestamp - last_audio_timestamp`, and complete the session
  when `not is_speech or duration ≥ max or time_gap > 2.0`. -/
def processAudioWithVad (cfg : STTConfig) (st : STTState)
    (audioData : List ℚ) (vadIsSpeaking : Bool) (timestamp : ℚ) :
    STTState × Option AudioChunk :=
  let isSpeech := vadIsSpeaking
  let st1 : STTState :=
    if isSpeech && st.currentSession.isNone then
      { currentSession := some
          { sessionId := (pyTrunc timestamp, st.sessionCounter + 1),
            startTimestamp := timestamp,
            audioBuffer := [],
            lastAudioTimestamp := timestamp },
        sessionCounter := st.sessionCounter + 1 }
    else st
  match st1.currentSession with
  | none => (st1, none)
  | some s =>
    let s := s.addAudio audioData timestamp
    let sessionDuration := s.getDuration
    let timeGap := timestamp - s.lastAudioTimestamp
    let shouldComplete : Prop :=
      ¬isSpeech = true ∨ sessionDuration ≥ cfg.maxSpeechDuration ∨ timeGap > 2
    if shouldComplete then
      completeCurrentSession cfg { st1 with currentSession := some s }
    else
      ({ st1 with currentSession := some s }, none)

/-- `STTService.flush_buffer`. -/
def flushBuffer (cfg : STTConfig) (st : STTState) : STTState × Option AudioChunk :=
  match st.currentSession with
  | some _ => completeCurrentSession cfg st
  | none => (st, none)

/-- A concrete active session: started at `t = 0`, one second of audio
(16000 samples) buffered, `last_audio_timestamp = 0`. -/
def gapSession : SpeechSession :=
  { sessionId := (0, 1), startTimestamp := 0,
    audioBuffer := List.replicate 16000 0, lastAudioTimestamp := 0 }

/-- The accumulator state holding `gapSession`. -/
def gapState : STTState := { currentSession := some gapSession, sessionCounter := 1 }

/-! ## Connection manager send failures (`backend/main.py`, `ConnectionManager`)

`send_personal_message` wraps `websocket.send_text` in a `try`.  On an
exception it increments `connection_attempts[websocket]` and, when the
counter has reached 3, disconnects.  Nothing on the success path touches
the counter.  A call is embedded as the outcome of the one external
effect, the send itself; a call on an already-dropped connection is a
no-op (the `websocket in self.active_connections` guard). -/

inductive SendOutcome where
  | ok
  | fail
deriving Repr, DecidableEq

/-- Per-connection state: membership in `active_connections` and the
`connection_attempts` counter (`connect` initialises it to 0;
`disconnect` removes the connection). -/
structure ConnState where
  active : Bool
  attempts : Nat
deriving Repr, DecidableEq

def ConnState.init : ConnState := { active := true, attempts := 0 }

/-- `ConnectionManager.send_personal_message`: on a failed send, bump the
counter and drop the connection once it reaches 3; a successful send
leaves the state alone. -/
def sendPersonalMessage (st : ConnState) (outcome : SendOutcome) : ConnState :=
  if st.active then
    match outcome with
    | .ok => st
    | .fail =>
      let n := st.attempts + 1
      if n ≥ 3 then { active := false, attempts := n }
      else { st with attempts := n }
  else st

/-- A connection's whole send history, starting from `connect`. -/
def runSends (outcomes : List SendOutcome) : ConnState :=
  outcomes.foldl sendPersonalMessage ConnState.init

/-- Number of failed sends in a history. -/
def countFails : List SendOutcome → Nat
  | [] => 0
  | .ok :: t => countFails t
  | .fail :: t => countFails t + 1

/-- The claim's reading of `send_personal_message`, for comparison: a
counter of *consecutive* failures, reset by every successful send. -/
def sendPersonalMessageClaimed (st : ConnState) (outcome : SendOutcome) : ConnState :=
  if st.active then
    match outcome with
    | .ok => { st with attempts := 0 }
    | .fail =>
      let n := st.attempts + 1
      if n ≥ 3 then { active := false, attempts := n }
      else { st with attempts := n }
  else st

/-- `runSends` under the claim's consecutive-failure reading. -/
def runSendsClaimed (outcomes : List SendOutcome) : ConnState :=
  outcomes.foldl sendPersonalMessageClaimed ConnState.init

/-! ## Screen-trigger detector (`backend/main.py`,
`check_text_for_screen_triggers`) -/

/-- `startswith`: is `needle` an initial run of `hay`? -/
def hasPref : List Char → List Char → Bool
  | [], _ => true
  | _ :: _, [] => false
  | n :: ns, h :: hs => n == h && hasPref ns hs

/-- Python `needle in hay`: does `needle` occur contiguously in `hay`? -/
def hasSub (needle : List Char) : List Char → Bool
  | [] => needle.isEmpty
  | h :: t => hasPref needle (h :: t) || hasSub needle t

/-- Python `str.lower`, on the ASCII range the lexicons live in. -/
def lowerStr (s : List Char) : List Char := s.map Char.toLower

/-- The whitespace class of Python `str.split()`. -/
def isPySpace (c : Char) : Bool :=
  c == ' ' || c == '\t' || c == '\n' || c == '\r' || c == '\x0b' || c == '\x0c'

/-- Helper for `splitWs`: words of the input, possibly with empty runs
where separators sat. -/
def splitWsAux : List Char → List (List Char)
  | [] => [[]]
  | c :: t =>
    let r := splitWsAux t
    if isPySpace c then [] :: r
    else
      match r with
      | [] => [[c]]
      | w :: ws => (c :: w) :: ws

/-- Python `str.split()` with no argument: split on whitespace runs,
dropping empty fields. -/
def splitWs (s : List Char) : List (List Char) :=
  (splitWsAux s).filter (fun w => !w.isEmpty)

/-- `explicit_triggers` from `check_text_for_screen_triggers`. -/
def explicitTriggers : List (List Char) :=
  [chars "screen", chars "display", chars "see", chars "look", chars "show",
   chars "what's on", chars "what is on", chars "current page", chars "this page",
   chars "this screen", chars "my screen", chars "the screen", chars "what am i",
   chars "where am i", chars "help with this", chars "help me with this",
   chars "what do you see", chars "can you see", chars "describe", chars "read this"]

/-- `context_words` from `check_text_for_screen_triggers`. -/
def contextWords : List (List Char) :=
  [chars "error", chars "issue", chars "problem", chars "bug", chars "broken",
   chars "not working", chars "help", chars "stuck", chars "confused",
   chars "understand", chars "explain", chars "debug", chars "fix"]

/-- `question_indicators` from `check_text_for_screen_triggers`. -/
def questionIndicators : List (List Char) :=
  [chars "what", chars "how", chars "where", chars "why", chars "which",
   chars "when", chars "can you", chars "could you", chars "would you",
   chars "should i", chars "do i", chars "am i", chars "is this"]

/-- The dict `check_text_for_screen_triggers` returns (the
`question_matches` entry included). -/
structure TriggerCheck where
  shouldCapture : Bool
  confidence : ℚ
  reason : List Char
  triggerMatches : List (List Char)
  contextMatches : List (List Char)
  questionMatches : List (List Char)
  textLength : Nat
deriving Repr, DecidableEq

/-- `check_text_for_screen_triggers`: lowercase the text, collect the
three match lists — a question indicator matches when the text *starts
with* it **or** contains it preceded by a space — then assign
`(confidence, reason)` by the first matching rule, and set
`should_capture = confidence >= 0.6`. -/
def checkTextForScreenTriggers (text : List Char) : TriggerCheck :=
  let textLower := lowerStr text
  let triggerMatches := explicitTriggers.filter (fun t => hasSub t textLower)
  let contextMatches := contextWords.filter (fun w => hasSub w textLower)
  let questionMatches := questionIndicators.filter
    (fun q => hasPref q textLower || hasSub (' ' :: q) textLower)
  let numTokens := (splitWs textLower).length
  let cr : ℚ × List Char :=
    if !triggerMatches.isEmpty then (mkRat 9 10, chars "explicit_trigger")
    else if !contextMatches.isEmpty && !questionMatches.isEmpty then
      (mkRat 8 10, chars "context_question")
    else if !contextMatches.isEmpty && numTokens > 3 then
      (mkRat 6 10, chars "context_phrase")
    else if !questionMatches.isEmpty && numTokens > 4 then
      (mkRat 5 10, chars "general_question")
    else (0, chars "no_triggers")
  { shouldCapture := decide (cr.1 ≥ mkRat 6 10),
    confidence := cr.1,
    reason := cr.2,
    triggerMatches := triggerMatches,
    contextMatches := contextMatches,
    questionMatches := questionMatches,
    textLength := numTokens }

/-! ## Outbound message flow (`backend/main.py` handlers)

The handlers' external effects (Whisper transcription, the multimodal
service, TTS) appear as parameters; the embedded functions return the
ordered list of message types handed to
`ConnectionManager.send_personal_message` for one inbound message. -/

/-- Outbound websocket message types of `backend/main.py`. -/
inductive OutMsg where
  | transcriptionResult
  | speechActive
  | screenCaptureRequest
  | aiResponse
  | audioResponse
  | errMsg
deriving Repr, DecidableEq

/-- Python truthiness of an optional string (`None` and `""` are falsy). -/
def pyTruthyStr : Option (List Char) → Bool
  | none => false
  | some s => !s.isEmpty

/-- Outcome of `process_with_tts`: service missing (silent return),
synthesis succeeded (`audio_response`), or an exception (`error`). -/
inductive TTSOutcome where
  | unavailable
  | ok
  | fail
deriving Repr, DecidableEq

/-- Messages `process_with_tts` sends. -/
def ttsMsgs : TTSOutcome → List OutMsg
  | .unavailable => []
  | .ok => [.audioResponse]
  | .fail => [.errMsg]

/-- Outcome of `process_with_multimodal_llm`: service missing, an
exception from conversation processing (`error`), or a response text
(`ai_response`, then TTS with its own outcome). -/
inductive MMOutcome where
  | unavailable
  | fail
  | ok (tts : TTSOutcome)
deriving Repr, DecidableEq

/-- Messages `process_with_multimodal_llm` sends. -/
def processWithMultimodalMsgs : MMOutcome → List OutMsg
  | .unavailable => []
  | .fail => [.errMsg]
  | .ok t => .aiResponse :: ttsMsgs t

/-- `handle_transcription_with_screen_check`: with an image already in
hand go straight to the multimodal path; otherwise consult the trigger
detector (only when screen sharing is on) and either park the turn
behind a `screen_capture_request` or proceed. -/
def handleTranscriptionWithScreenCheck (text : List Char)
    (screenImage : Option (List Char)) (screenShareOn : Bool) (mm : MMOutcome) :
    List OutMsg :=
  if pyTruthyStr screenImage then processWithMultimodalMsgs mm
  else
    let needs : Bool × ℚ :=
      if screenShareOn then
        let r := checkTextForScreenTriggers text
        (r.shouldCapture, r.confidence)
      else (false, 0)
    if needs.1 && decide (needs.2 ≥ mkRat 6 10) then [.screenCaptureRequest]
    else processWithMultimodalMsgs mm

/-- `handle_audio_data` after `process_audio_with_vad`: a completed chunk
is transcribed (the text is the external STT result, `""` on engine
failure); non-empty text yields `transcription_result` and then the
screen-check flow, empty text yields nothing; with no completed chunk,
`speech_active` feedback while VAD says speaking. -/
def handleAudioDataMsgs (chunk : Option AudioChunk) (transcriptionText : List Char)
    (vadIsSpeaking : Bool) (screenImage : Option (List Char)) (screenShareOn : Bool)
    (mm : MMOutcome) : List OutMsg :=
  match chunk with
  | some _ =>
    if !transcriptionText.isEmpty then
      .transcriptionResult ::
        handleTranscriptionWithScreenCheck transcriptionText screenImage screenShareOn mm
    else []
  | none => if vadIsSpeaking then [.speechActive] else []

/-- `handle_screen_capture_response`: only a truthy `screen_image` paired
with a truthy `original_text` reaches `process_with_multimodal_llm`;
anything else just logs.  The second component counts invocations of
`process_with_multimodal_llm`. -/
def handleScreenCaptureResponse (screenImage : Option (List Char))
    (originalText : List Char) (mm : MMOutcome) : List OutMsg × Nat :=
  if pyTruthyStr screenImage && !originalText.isEmpty then
    (processWithMultimodalMsgs mm, 1)
  else ([], 0)

/-- All messages attributable to one utterance: those of the
`handle_audio_data` call that completed it, followed by those of any
later `screen_capture_response` deliveries resuming its deferred turn. -/
def utteranceMsgs (chunk : Option AudioChunk) (transcriptionText : List Char)
    (vadIsSpeaking : Bool) (screenImage : Option (List Char)) (screenShareOn : Bool)
    (mm : MMOutcome)
    (resumptions : List (Option (List Char) × List Char × MMOutcome)) : List OutMsg :=
  handleAudioDataMsgs chunk transcriptionText vadIsSpeaking screenImage screenShareOn mm ++
    resumptions.foldr
      (fun r acc => (handleScreenCaptureResponse r.1 r.2.1 r.2.2).1 ++ acc) []

/-! ## Tool-calling workflow: execute node and retry routing
(`backend/models/enhanced_tool_calling.py`) -/

/-- The slice of `ToolCallingState` that `_execute_tool_node` and
`_check_execution_success` read or write. -/
structure ToolCallingState where
  retryCount : Nat
  maxRetries : Nat
  executionSuccess : Bool
  toolResponse : Option (List Char)
  errorMessages : List (List Char)
  toolExecutionHistory : List (List Char)
deriving Repr, DecidableEq

/-- The state `process_query` starts the workflow in. -/
def initToolState : ToolCallingState :=
  { retryCount := 0, maxRetries := 2, executionSuccess := false,
    toolResponse := none, errorMessages := [], toolExecutionHistory := [] }

/-- Outcome of the `perplexity_client.tool_call` round trip inside
`_execute_tool_node`: an exception somewhere in the `try`, a falsy
result (`None`), or a truthy response. -/
inductive ToolExecOutcome where
  | raised (msg : List Char)
  | noResponse
  | response (resp : List Char)
deriving Repr, DecidableEq

/-- `_execute_tool_node`: a truthy response is stored with
`execution_success = True` and a history entry; a falsy one records an
error with `execution_success = False`; an exception additionally
increments `retry_count`. -/
def executeToolNode (st : ToolCallingState) (query : List Char)
    (outcome : ToolExecOutcome) : ToolCallingState :=
  match outcome with
  | .response resp =>
    { st with
      toolResponse := some resp
      executionSuccess := true
      toolExecutionHistory := st.toolExecutionHistory ++ [query] }
  | .noResponse =>
    { st with
      executionSuccess := false
      errorMessages := st.errorMessages ++ [chars "Tool returned no response"] }
  | .raised msg =>
    { st with
      executionSuccess := false
      errorMessages := st.errorMessages ++ [msg]
      retryCount := st.retryCount + 1 }

/-- Where the conditional edge out of `execute_tool` goes. -/
inductive ExecRoute where
  | success
  | retry
  | error
deriving Repr, DecidableEq

/-- `_check_execution_success`: `success` on a successful execution,
otherwise `retry` (back into `optimize_parameters`) while
`retry_count < max_retries`, else `error` (into `handle_error`). -/
def checkExecutionSuccess (st : ToolCallingState) : ExecRoute :=
  if st.executionSuccess then .success
  else if st.retryCount < st.maxRetries then .retry
  else .error

/-! ## Orchestrator quality gate
(`backend/models/enhanced_multimodal.py`, `_handle_enhanced_tool_calling`) -/

/-- The keys of the `process_query` return that the gate inspects
(`intent_classification["needs_tool"]`, `execution_success`,
`quality_score`), plus the response the orchestrator would use. -/
structure WorkflowResult where
  needsTool : Bool
  executionSuccess : Bool
  qualityScore : ℚ
  response : List Char
deriving Repr, DecidableEq

/-- `EnhancedMultimodalConfig.quality_score_threshold` (0.6). -/
def qualityScoreThreshold : ℚ := mkRat 6 10

/-- The decision at the end of `_handle_enhanced_tool_calling`: return
the workflow result when `needs_tool` and `execution_success` hold and
the quality score meets the threshold; otherwise `None`, which makes
`process_conversation` fall back to the direct LLM path. -/
def handleEnhancedToolCalling (r : WorkflowResult) : Option WorkflowResult :=
  if r.needsTool && r.executionSuccess && decide (r.qualityScore ≥ qualityScoreThreshold) then
    some r
  else if r.needsTool then none
  else none

/-! ## Tool handle (`backend/MCP/mcp_client/perplexity_tool_handle.py`) -/

/-- One element of `result["content"]`: its `"text"` entry when present,
and its `str()` rendering for the fallback branch. -/
structure ToolContentItem where
  text : Option (List Char)
  pyRepr : List Char
deriving Repr, DecidableEq

/-- The `"result"` member of a parsed tool response: whether a
`"content"` key is present, and its list when it is. -/
structure ToolCallResult where
  content : Option (List ToolContentItem)
deriving Repr, DecidableEq

/-- A parsed (dict) tool response, with its `str()` rendering for the
fallback branches. -/
structure ToolCallResponse where
  result : Option ToolCallResult
  pyRepr : List Char
deriving Repr, DecidableEq

/-- What the delegated `connect` + `tool_call` did: raised somewhere in
the `try`, or returned a value (`None` or a parsed dict). -/
inductive ToolCallValue where
  | raised
  | value (v : Option ToolCallResponse)
deriving Repr, DecidableEq

/-- Python `str(None)`. -/
def pyNone : List Char := chars "None"

/-- `PerplexityToolHandle.handle_tool_call`, result value only: on an
exception the original input comes back; otherwise the text is dug out
of `result["content"][0]["text"]` with `str(...)` fallbacks at every
missing layer — in particular a `None` tool response hits the final
`str(tool_response)` branch and becomes the string `"None"`. -/
def handleToolCall (response : List Char) (outcome : ToolCallValue) : List Char :=
  match outcome with
  | .raised => response
  | .value none => pyNone
  | .value (some tr) =>
    match tr.result with
    | some res =>
      match res.content with
      | some content =>
        match content with
        | c :: _ =>
          match c.text with
          | some t => t
          | none => c.pyRepr
        | [] => tr.pyRepr
      | none => tr.pyRepr
    | none => tr.pyRepr

/-! ## Performance monitor (`backend/services/performance_monitor.py`) -/

/-- `ServiceStats`.  `min_duration = float("inf")` is embedded as `none`;
`recent_durations` is the `deque(maxlen=100)`. -/
structure ServiceStats where
  totalRequests : Nat
  successfulRequests : Nat
  failedRequests : Nat
  avgDuration : ℚ
  minDuration : Option ℚ
  maxDuration : ℚ
  recentDurations : List ℚ
deriving Repr, DecidableEq

/-- A fresh `ServiceStats(service_name=service)`. -/
def ServiceStats.init : ServiceStats :=
  { totalRequests := 0, successfulRequests := 0, failedRequests := 0,
    avgDuration := 0, minDuration := none, maxDuration := 0, recentDurations := [] }

/-- `deque(maxlen=n).append`: at capacity the leftmost entry is dropped. -/
def dequeAppend (maxlen : Nat) (l : List ℚ) (d : ℚ) : List ℚ :=
  (if l.length ≥ maxlen then l.drop 1 else l) ++ [d]

/-- `statistics.mean`. -/
def listMean (l : List ℚ) : ℚ := l.sum / (l.length : ℚ)

/-- `PerformanceMonitor._update_service_stats`: always bump the total;
a successful sample also bumps the success count, enters the rolling
window and refreshes min/max/avg; a failed sample only bumps the
failure count. -/
def updateServiceStats (stats : ServiceStats) (success : Bool) (duration : ℚ) :
    ServiceStats :=
  let stats := { stats with totalRequests := stats.totalRequests + 1 }
  if success then
    let rd := dequeAppend 100 stats.recentDurations duration
    { stats with
      successfulRequests := stats.successfulRequests + 1
      recentDurations := rd
      minDuration := some (match stats.minDuration with
        | none => duration
        | some m => min m duration)
      maxDuration := max stats.maxDuration duration
      avgDuration := if rd.isEmpty then stats.avgDuration else listMean rd }
  else { stats with failedRequests := stats.failedRequests + 1 }

/-- The `service_stats` table with `record_metric`'s get-or-create:
update the service's entry, creating it from `ServiceStats.init` when
the service is new. -/
def updateStatsTable : List (List Char × ServiceStats) → List Char → Bool → ℚ →
    List (List Char × ServiceStats)
  | [], svc, success, d => [(svc, updateServiceStats ServiceStats.init success d)]
  | (k, v) :: t, svc, success, d =>
    if k = svc then (k, updateServiceStats v success d) :: t
    else (k, v) :: updateStatsTable t svc success d

/-- A whole history of `record_metric` calls (service, success,
duration), starting from the empty table. -/
def runRecordMetrics (calls : List (List Char × Bool × ℚ)) :
    List (List Char × ServiceStats) :=
  calls.foldl (fun mon c => updateStatsTable mon c.1 c.2.1 c.2.2) []

/-! ## Framed JSON-RPC transport (`backend/MCP/mcp_client/client.py`)

`_send_framed` serialises a JSON-RPC object with `json.dumps`, writes a
`Content-Length: <len>\r\n\r\n` header followed by the body, then reads
header lines until a blank one, parses `Content-Length`
case-insensitively, reads exactly that many bytes, and hands them to
`json.loads`.  The wire is embedded as `List Char`; with `json.dumps`'s
default `ensure_ascii=True` (modelled below, astral characters as
surrogate pairs) every serialised character is one ASCII byte, so
character counts and byte counts agree. -/

/-- The JSON values the client frames: `json.dumps`/`json.loads` over
the requests and responses of this transport (numbers are the integer
ids and integer parameters the protocol uses). -/
inductive Jval where
  | null
  | bool (b : Bool)
  | int (n : Int)
  | str (s : List Char)
  | arr (items : List Jval)
  | obj (members : List (List Char × Jval))

/-- Lowercase hex digit, as `json.dumps` writes in `\uXXXX` escapes. -/
def hexDigit (n : Nat) : Char :=
  if n < 10 then Char.ofNat ('0'.toNat + n) else Char.ofNat ('a'.toNat + (n - 10))

/-- The four hex digits of `n < 0x10000`. -/
def hex4 (n : Nat) : List Char :=
  [hexDigit (n / 4096 % 16), hexDigit (n / 256 % 16), hexDigit (n / 16 % 16),
   hexDigit (n % 16)]

/-- `json.dumps` escaping of one character (`ensure_ascii=True`): the
two-character escapes for quote, backslash and common controls, `\u00XX`
for the remaining controls, printable ASCII literally, `\uXXXX` for
other BMP characters and a surrogate pair beyond. -/
def escapeChar (c : Char) : List Char :=
  if c == '"' then ['\\', '"']
  else if c == '\\' then ['\\', '\\']
  else if c == '\n' then ['\\', 'n']
  else if c == '\r' then ['\\', 'r']
  else if c == '\t' then ['\\', 't']
  else if c == '\x08' then ['\\', 'b']
  else if c == '\x0c' then ['\\', 'f']
  else if c.toNat < 0x20 then '\\' :: 'u' :: hex4 c.toNat
  else if c.toNat ≤ 0x7e then [c]
  else if c.toNat < 0x10000 then '\\' :: 'u' :: hex4 c.toNat
  else
    '\\' :: 'u' :: hex4 (0xd800 + (c.toNat - 0x10000) / 1024) ++
      ('\\' :: 'u' :: hex4 (0xdc00 + (c.toNat - 0x10000) % 1024))

/-- A serialised JSON string: quote, escaped characters, quote. -/
def dumpStr (s : List Char) : List Char :=
  '"' :: (s.flatMap escapeChar ++ ['"'])

/-- `'0'`-based digit character. -/
def digitChar (d : Nat) : Char := Char.ofNat ('0'.toNat + d)

/-- Fuelled helper for `natDigits` (the fuel only needs to dominate the
number of digits). -/
def natDigitsAux : Nat → Nat → List Char
  | 0, _ => []
  | fuel + 1, n =>
    if n < 10 then [digitChar n]
    else natDigitsAux fuel (n / 10) ++ [digitChar (n % 10)]

/-- Decimal digits of `n`, most significant first — `str(n)` for a
natural number. -/
def natDigits (n : Nat) : List Char := natDigitsAux (n + 1) n

/-- `str(i)` for an integer: optional minus sign, then digits. -/
def dumpInt (i : Int) : List Char :=
  (if i < 0 then ['-'] else []) ++ natDigits i.natAbs

mutual
/-- `json.dumps` with its default separators `", "` and `": "`. -/
def dumpVal : Jval → List Char
  | .null => chars "null"
  | .bool true => chars "true"
  | .bool false => chars "false"
  | .int n => dumpInt n
  | .str s => dumpStr s
  | .arr [] => ['[', ']']
  | .arr (x :: xs) => '[' :: (dumpVal x ++ dumpArrTail xs ++ [']'])
  | .obj [] => ['\x7b', '\x7d']
  | .obj ((k, v) :: ms) =>
    '\x7b' :: (dumpStr k ++ ':' :: ' ' :: (dumpVal v ++ dumpObjTail ms ++ ['\x7d']))

/-- The `", "`-separated remainder of a serialised array. -/
def dumpArrTail : List Jval → List Char
  | [] => []
  | x :: xs => ',' :: ' ' :: (dumpVal x ++ dumpArrTail xs)

/-- The `", "`-separated remainder of a serialised object. -/
def dumpObjTail : List (List Char × Jval) → List Char
  | [] => []
  | (k, v) :: ms => ',' :: ' ' :: (dumpStr k ++ ':' :: ' ' :: (dumpVal v ++ dumpObjTail ms))
end

/-- JSON whitespace. -/
def jWs (c : Char) : Bool := c == ' ' || c == '\t' || c == '\n' || c == '\r'

/-- Drop leading JSON whitespace. -/
def skipJWs : List Char → List Char
  | [] => []
  | c :: t => if jWs c then skipJWs t else c :: t

/-- Value of one hex digit, both cases accepted. -/
def hexDigitVal (c : Char) : Option Nat :=
  let n := c.toNat
  if 48 ≤ n && n ≤ 57 then some (n - 48)
  else if 97 ≤ n && n ≤ 102 then some (n - 87)
  else if 65 ≤ n && n ≤ 70 then some (n - 55)
  else none

/-- Value of a four-digit hex run. -/
def hex4Val (a b c d : Char) : Option Nat :=
  match hexDigitVal a, hexDigitVal b, hexDigitVal c, hexDigitVal d with
  | some va, some vb, some vc, some vd => some (((va * 16 + vb) * 16 + vc) * 16 + vd)
  | _, _, _, _ => none

/-- The two-character escapes `json.loads` accepts. -/
def unescapeChar (e : Char) : Option Char :=
  if e == '"' || e == '\\' || e == '/' then some e
  else if e == 'n' then some '\n'
  else if e == 'r' then some '\r'
  else if e == 't' then some '\t'
  else if e == 'b' then some '\x08'
  else if e == 'f' then some '\x0c'
  else none

/-- Prepend a decoded character to a string-parser result. -/
def consStr (c : Char) : Option (List Char × List Char) → Option (List Char × List Char)
  | some (s, r) => some (c :: s, r)
  | none => none

mutual
/-- `json.loads` on a string body, after the opening quote: plain
characters, two-character escapes, `\\uXXXX` (a high surrogate must be
followed by a low one, and the pair combines). -/
def parseStrBody : List Char → Option (List Char × List Char)
  | [] => none
  | c :: rest =>
    if c == '"' then some ([], rest)
    else if c == '\\' then parseEsc rest
    else consStr c (parseStrBody rest)

/-- The part of a string body after a backslash. -/
def parseEsc : List Char → Option (List Char × List Char)
  | 'u' :: a :: b :: d :: e :: rest2 =>
    match hex4Val a b d e with
    | some n =>
      if 0xd800 ≤ n ∧ n ≤ 0xdbff then parseLowSurrogate n rest2
      else consStr (Char.ofNat n) (parseStrBody rest2)
    | none => none
  | e :: rest2 =>
    match unescapeChar e with
    | some ch => consStr ch (parseStrBody rest2)
    | none => none
  | [] => none

/-- After a high surrogate `n`, a `\\uXXXX` low surrogate must follow;
the pair combines into one character. -/
def parseLowSurrogate : Nat → List Char → Option (List Char × List Char)
  | n, '\\' :: 'u' :: f :: g :: h :: i :: rest3 =>
    match hex4Val f g h i with
    | some m =>
      if 0xdc00 ≤ m ∧ m ≤ 0xdfff then
        consStr (Char.ofNat (0x10000 + (n - 0xd800) * 1024 + (m - 0xdc00)))
          (parseStrBody rest3)
      else none
    | none => none
  | _, _ => none
end

/-- Decimal digit? -/
def isDig (c : Char) : Bool := '0' ≤ c && c ≤ '9'

/-- Split a leading run of decimal digits off the input. -/
def takeDigits : List Char → List Char × List Char
  | [] => ([], [])
  | c :: t =>
    if isDig c then
      let p := takeDigits t
      (c :: p.1, p.2)
    else ([], c :: t)

/-- Numeric value of a digit run. -/
def digitsVal (ds : List Char) : Nat :=
  ds.foldl (fun a c => a * 10 + (c.toNat - '0'.toNat)) 0

/-- Parse an optionally-signed decimal integer token. -/
def parseIntTok : List Char → Option (Int × List Char)
  | [] => none
  | c :: t =>
    if c == '-' then
      match takeDigits t with
      | ([], _) => none
      | (ds, r) => some (-(digitsVal ds : Int), r)
    else
      match takeDigits (c :: t) with
      | ([], _) => none
      | (ds, r) => some ((digitsVal ds : Int), r)

mutual
/-- `json.loads` on one value, fuelled: skip whitespace, then dispatch on
the first character. -/
def parseJVal : Nat → List Char → Option (Jval × List Char)
  | 0, _ => none
  | fuel + 1, cs =>
    match skipJWs cs with
    | 'n' :: 'u' :: 'l' :: 'l' :: r => some (.null, r)
    | 't' :: 'r' :: 'u' :: 'e' :: r => some (.bool true, r)
    | 'f' :: 'a' :: 'l' :: 's' :: 'e' :: r => some (.bool false, r)
    | '"' :: r =>
      match parseStrBody r with
      | some (s, r1) => some (.str s, r1)
      | none => none
    | '[' :: r =>
      match skipJWs r with
      | ']' :: r1 => some (.arr [], r1)
      | r1 =>
        match parseJItems fuel r1 with
        | some (items, r2) => some (.arr items, r2)
        | none => none
    | '\x7b' :: r =>
      match skipJWs r with
      | '\x7d' :: r1 => some (.obj [], r1)
      | r1 =>
        match parseJMembers fuel r1 with
        | some (ms, r2) => some (.obj ms, r2)
        | none => none
    | cs1 =>
      match parseIntTok cs1 with
      | some (n, r) => some (.int n, r)
      | none => none

/-- One or more comma-separated array items, up to the closing bracket. -/
def parseJItems : Nat → List Char → Option (List Jval × List Char)
  | 0, _ => none
  | fuel + 1, cs =>
    match parseJVal fuel cs with
    | some (v, r) =>
      match skipJWs r with
      | ',' :: r1 =>
        (match parseJItems fuel r1 with
         | some (vs, r2) => some (v :: vs, r2)
         | none => none)
      | ']' :: r1 => some ([v], r1)
      | _ => none
    | none => none

/-- One or more comma-separated object members, up to the closing brace. -/
def parseJMembers : Nat → List Char → Option (List (List Char × Jval) × List Char)
  | 0, _ => none
  | fuel + 1, cs =>
    match skipJWs cs with
    | '"' :: r =>
      match parseStrBody r with
      | some (k, r1) =>
        match skipJWs r1 with
        | ':' :: r2 =>
          match parseJVal fuel r2 with
          | some (v, r3) =>
            match skipJWs r3 with
            | ',' :: r4 =>
              (match parseJMembers fuel r4 with
               | some (ms, r5) => some ((k, v) :: ms, r5)
               | none => none)
            | '\x7d' :: r4 => some ([(k, v)], r4)
            | _ => none
          | none => none
        | _ => none
      | none => none
    | _ => none
end

/-- `json.loads`: one value, nothing but whitespace after it. -/
def jloads (cs : List Char) : Option Jval :=
  match parseJVal (cs.length + 1) cs with
  | some (v, r) => if (skipJWs r).isEmpty then some v else none
  | none => none

/-- The header `_send_framed` writes: `Content-Length: <n>\r\n\r\n`. -/
def frameHeader (n : Nat) : List Char :=
  chars "Content-Length: " ++ natDigits n ++ ['\r', '\n', '\r', '\n']

/-- The write side of `_send_framed`: header for the body's length, then
the body, `json.dumps` of the request object. -/
def sendFramedWrite (x : Jval) : List Char :=
  frameHeader (dumpVal x).length ++ dumpVal x

/-- `readline` on the byte stream: everything up to and including the
first newline (or all of it if none remains). -/
def readLine : List Char → List Char × List Char
  | [] => ([], [])
  | c :: t =>
    if c == '\n' then ([c], t)
    else
      let p := readLine t
      (c :: p.1, p.2)

/-- `line.rstrip(b"\r\n")`: drop trailing carriage returns and newlines. -/
def rstripCRLF (l : List Char) : List Char :=
  (l.reverse.dropWhile (fun c => c == '\r' || c == '\n')).reverse

/-- `line.split(b":", 1)[1]`: the part after the first colon, or `None`
(an `IndexError` swallowed by the `except`) when there is no colon. -/
def afterColon : List Char → Option (List Char)
  | [] => none
  | c :: t => if c == ':' then some t else afterColon t

/-- `bytes.strip()`: drop leading and trailing ASCII whitespace. -/
def stripWs (l : List Char) : List Char :=
  ((l.dropWhile isPySpace).reverse.dropWhile isPySpace).reverse

/-- Python `int()` on a stripped byte string: optional sign, then a
nonempty digit run and nothing else. -/
def parsePyInt (l : List Char) : Option Int :=
  match l with
  | [] => none
  | c :: t =>
    if c == '-' then
      (if t.all isDig && !t.isEmpty then some (-(digitsVal t : Int)) else none)
    else if c == '+' then
      (if t.all isDig && !t.isEmpty then some ((digitsVal t : Int)) else none)
    else if (c :: t).all isDig then some ((digitsVal (c :: t) : Int)) else none

/-- The header-reading loop of `_send_framed`: `readline` until a blank
line, remembering the last `Content-Length` header (matched on the
lowercased line); `None` on end of stream, on an unparsable length, or
when the blank line arrives with no length seen. -/
def readHeaderLoop : Nat → Option Int → List Char → Option (Int × List Char)
  | 0, _, _ => none
  | fuel + 1, contentLength, s =>
    let p := readLine s
    if p.1.isEmpty then none
    else
      let l := rstripCRLF p.1
      if l.isEmpty then
        match contentLength with
        | some n => some (n, p.2)
        | none => none
      else if hasPref (chars "content-length:") (lowerStr l) then
        match afterColon l with
        | some v =>
          match parsePyInt (stripWs v) with
          | some n => readHeaderLoop fuel (some n) p.2
          | none => none
        | none => none
      else readHeaderLoop fuel contentLength p.2

/-- `r.read(remaining)` until `remaining` bytes have arrived: exactly
`n` characters, or `None` when the stream ends first. -/
def readExact (n : Nat) (s : List Char) : Option (List Char × List Char) :=
  if s.length < n then none else some (s.take n, s.drop n)

/-- The read side of `_send_framed`: headers, body, `json.loads`. -/
def decodeFramedResponse (stream : List Char) : Option Jval :=
  match readHeaderLoop (stream.length + 1) none stream with
  | some (n, rest) =>
    match readExact n.toNat rest with
    | some (body, _) => jloads body
    | none => none
  | none => none

/-- Delimiters that may legally follow a serialised JSON value: end of
input, or a comma, closing bracket or closing brace. -/
def jDelim : List Char → Bool
  | [] => true
  | c :: _ => c == ',' || c == ']' || c == '\x7d'

/-! ## Match predicates for the trigger cascade, stated independently of
the filter-based implementation. -/

/-- Some explicit trigger occurs in the lowercased text. -/
def explicitHit (text : List Char) : Prop :=
  ∃ t ∈ explicitTriggers, hasSub t (lowerStr text) = true

/-- Some context word occurs in the lowercased text. -/
def contextHit (text : List Char) : Prop :=
  ∃ w ∈ contextWords, hasSub w (lowerStr text) = true

/-- Some question indicator matches: the lowercased text starts with it,
or contains it preceded by a space. -/
def questionHit (text : List Char) : Prop :=
  ∃ q ∈ questionIndicators,
    (hasPref q (lowerStr text) || hasSub (' ' :: q) (lowerStr text)) = true

/-- Token count of the text under Python `split()`. -/
def tokenCount (text : List Char) : Nat := (splitWs (lowerStr text)).length

/-!
# Theorems
-/

/-! ### C1 — inter-frame gap (`process_audio_with_vad`) -/

/-- C1, evaluated at the failing input: `gapState` holds an active
session with `last_audio_timestamp = 0` and one second of audio; the
next call arrives at `timestamp = 10` (a 10-second inter-frame gap) with
`isSpeaking = true` and duration far below the maximum, so by the claim
the session must complete.  The code instead emits nothing and keeps the
session active: `add_audio` has already moved `last_audio_timestamp` to
`timestamp`, so the computed `time_gap` is `0` and the `> 2 s` clause
can never fire. -/
theorem processAudioWithVad_big_gap_not_completed :
    (processAudioWithVad {} gapState [] true 10).2 = none ∧
    (processAudioWithVad {} gapState [] true 10).1.currentSession =
      some (gapSession.addAudio [] 10) := by
  rw [processAudioWithVad]
  norm_num [gapState, gapSession, SpeechSession.addAudio, SpeechSession.getDuration]

/-! ### C3 — execute node failures and retry routing -/

/-- C3, counterexample: from the workflow's initial state, an execution
whose tool call returns no response (`None`) is a failed execution — no
raw response is stored and `execution_success` is false — yet
`retry_count` stays `0`; only the exception branch increments it. -/
theorem executeToolNode_noResponse_retryCount_unchanged :
    (executeToolNode initToolState (chars "q") .noResponse).retryCount = 0 ∧
    (executeToolNode initToolState (chars "q") .noResponse).executionSuccess = false ∧
    (executeToolNode initToolState (chars "q") .noResponse).toolResponse = none := by
  decide

/-- C3, amended: an execution that raises increments `retry_count`; an
execution whose tool call returns no response records the failure but
leaves `retry_count` unchanged; a truthy response stores the raw
response with `execution_success = true`.  Afterwards the conditional
edge re-enters `optimize_parameters` iff the (updated) `retry_count` is
below `max_retries`, and otherwise goes to `handle_error`; a successful
execution always routes to `parse_response`. -/
theorem executeToolNode_failure_and_routing (st : ToolCallingState)
    (q m resp : List Char) :
    (executeToolNode st q (.raised m)).retryCount = st.retryCount + 1 ∧
    (executeToolNode st q (.raised m)).executionSuccess = false ∧
    (executeToolNode st q (.raised m)).toolResponse = st.toolResponse ∧
    (executeToolNode st q .noResponse).retryCount = st.retryCount ∧
    (executeToolNode st q .noResponse).executionSuccess = false ∧
    (executeToolNode st q .noResponse).toolResponse = st.toolResponse ∧
    (executeToolNode st q (.response resp)).executionSuccess = true ∧
    (executeToolNode st q (.response resp)).toolResponse = some resp ∧
    checkExecutionSuccess (executeToolNode st q (.raised m)) =
      (if st.retryCount + 1 < st.maxRetries then .retry else .error) ∧
    checkExecutionSuccess (executeToolNode st q .noResponse) =
      (if st.retryCount < st.maxRetries then .retry else .error) ∧
    checkExecutionSuccess (executeToolNode st q (.response resp)) = .success := by
  refine ⟨rfl, rfl, rfl, rfl, rfl, rfl, rfl, rfl, ?_, ?_, rfl⟩ <;>
    simp [checkExecutionSuccess, executeToolNode]

/-! ### C4 — orchestrator quality gate -/

/-- C4: `_handle_enhanced_tool_calling` hands the workflow result to the
caller exactly when `needs_tool`, `execution_success`, and
`quality_score ≥ 0.6` all hold; in every other case it returns `None`
and `process_conversation` falls back to the direct LLM path. -/
theorem handleEnhancedToolCalling_gate (r : WorkflowResult) :
    (handleEnhancedToolCalling r = some r ↔
      r.needsTool = true ∧ r.executionSuccess = true ∧
        r.qualityScore ≥ qualityScoreThreshold) ∧
    (¬(r.needsTool = true ∧ r.executionSuccess = true ∧
        r.qualityScore ≥ qualityScoreThreshold) →
      handleEnhancedToolCalling r = none) := by
  have hiff : (r.needsTool && r.executionSuccess &&
      decide (r.qualityScore ≥ qualityScoreThreshold)) = true ↔
      (r.needsTool = true ∧ r.executionSuccess = true ∧
        r.qualityScore ≥ qualityScoreThreshold) := by
    simp [Bool.and_eq_true, and_assoc]
  unfold handleEnhancedToolCalling
  by_cases h : (r.needsTool && r.executionSuccess &&
      decide (r.qualityScore ≥ qualityScoreThreshold)) = true
  · rw [if_pos h]
    exact ⟨⟨fun _ => hiff.mp h, fun _ => rfl⟩, fun hc => absurd (hiff.mp h) hc⟩
  · rw [if_neg h, ite_self]
    exact ⟨⟨fun he => Option.noConfusion he, fun hc => absurd (hiff.mpr hc) h⟩,
      fun _ => rfl⟩

/-- Witness for the C4 gate at concrete inputs: the claim's example
result with `quality_score = 0.4` is rejected (the orchestrator falls
back), while the same result at `0.7` is passed through. -/
theorem handleEnhancedToolCalling_gate_witness :
    handleEnhancedToolCalling
      { needsTool := true, executionSuccess := true, qualityScore := mkRat 4 10, response := chars "w" } = none ∧
    handleEnhancedToolCalling
      { needsTool := true, executionSuccess := true, qualityScore := mkRat 7 10, response := chars "w" } =
      some { needsTool := true, executionSuccess := true, qualityScore := mkRat 7 10, response := chars "w" } := by
  constructor
  · exact (handleEnhancedToolCalling_gate _).2 (by decide)
  · exact (handleEnhancedToolCalling_gate _).1.mpr ⟨rfl, rfl, by decide⟩

/-! ### C5 — tool handle fallback -/

/-- C5, counterexample: when the delegated call returns `None` without
raising, the handler does not return its input unchanged — it returns
Python's `str(None)`, the string `"None"`. -/
theorem handleToolCall_none_becomes_None_string :
    handleToolCall (chars "hello") (.value none) = pyNone ∧
    handleToolCall (chars "hello") (.value none) ≠ chars "hello" := by
  decide

/-- C5, amended: the input comes back unchanged exactly on the exception
path; a `None` response becomes the string `"None"`; a well-formed
response (a dict with `result.content` a nonempty list whose head has a
`"text"` entry) yields `result.content[0].text`. -/
theorem handleToolCall_cases (response t pr pr2 : List Char)
    (rest : List ToolContentItem) :
    handleToolCall response .raised = response ∧
    handleToolCall response (.value none) = pyNone ∧
    handleToolCall response
      (.value (some
        { result := some { content := some ({ text := some t, pyRepr := pr } :: rest) }
          pyRepr := pr2 })) = t := by
  exact ⟨rfl, rfl, rfl⟩

/-! ### C6 — send-failure counting -/

/-- C6, counterexample: in the trace fail, ok, fail, ok, fail no three
*consecutive* failures ever occur — under the claim's reading (counter
reset by a success) the connection stays up — yet the code drops the
connection at the fifth send, because nothing on the success path resets
the counter. -/
theorem runSends_alternating_trace_drops :
    (runSends [.fail, .ok, .fail, .ok, .fail]).active = false ∧
    (runSendsClaimed [.fail, .ok, .fail, .ok, .fail]).active = true := by
  decide

/-- Helper for the C6 induction: folding a history over
`send_personal_message` from a state whose counter already records
`n ≤ 3` cumulative failures. -/
lemma runSends_foldl_invariant (outcomes : List SendOutcome) :
    ∀ n : Nat, n ≤ 3 →
      (outcomes.foldl sendPersonalMessage
          { active := decide (n < 3), attempts := n }) =
        { active := decide (n + countFails outcomes < 3),
          attempts := min (n + countFails outcomes) 3 } := by
  induction outcomes with
  | nil =>
    intro n hn
    simp only [List.foldl_nil, countFails, Nat.add_zero, ConnState.mk.injEq]
    exact ⟨trivial, by omega⟩
  | cons o t ih =>
    intro n hn
    cases o with
    | ok =>
      have step : sendPersonalMessage
          { active := decide (n < 3), attempts := n } .ok =
          { active := decide (n < 3), attempts := n } := by
        simp [sendPersonalMessage]
      simp only [List.foldl_cons, step, countFails]
      exact ih n hn
    | fail =>
      by_cases h3 : n < 3
      · have step : sendPersonalMessage
            { active := decide (n < 3), attempts := n } .fail =
            { active := decide (n + 1 < 3), attempts := n + 1 } := by
          simp only [sendPersonalMessage, decide_eq_true_eq, if_pos h3]
          split_ifs with h4 <;> simp only [ConnState.mk.injEq] <;>
            refine ⟨?_, trivial⟩
          · rw [eq_comm, decide_eq_false_iff_not]; omega
          · rw [decide_eq_decide]; omega
        simp only [List.foldl_cons, step, countFails]
        rw [ih (n + 1) (by omega)]
        simp only [ConnState.mk.injEq]
        refine ⟨by rw [decide_eq_decide]; omega, by omega⟩
      · have hn3 : n = 3 := by omega
        subst hn3
        have step : sendPersonalMessage
            { active := decide ((3:Nat) < 3), attempts := 3 } .fail =
            { active := decide ((3:Nat) < 3), attempts := 3 } := by
          simp [sendPersonalMessage]
        simp only [List.foldl_cons, step, countFails]
        rw [ih 3 (by omega)]
        simp only [ConnState.mk.injEq]
        refine ⟨by rw [decide_eq_decide]; omega, by omega⟩

/-- C6, amended: the counter accumulates send failures over the
connection's lifetime — a successful send does *not* reset it — and the
connection is dropped exactly when the third failure (cumulative, not
consecutive) occurs; afterwards further sends are no-ops. -/
theorem runSends_drops_at_three_cumulative_failures (outcomes : List SendOutcome) :
    (runSends outcomes).active = decide (countFails outcomes < 3) ∧
    (runSends outcomes).attempts = min (countFails outcomes) 3 := by
  have h := runSends_foldl_invariant outcomes 0 (by omega)
  simp only [Nat.zero_add, show decide ((0:Nat) < 3) = true from rfl] at h
  rw [runSends, show ConnState.init = { active := true, attempts := 0 } from rfl, h]
  exact ⟨rfl, rfl⟩

/-! ### C10 — invalid screen-capture responses are dropped silently -/

/-- C10: a `screen_capture_response` whose `screen_image` is missing or
empty, or whose `original_text` is empty, produces no outbound message
of any kind and never reaches `process_with_multimodal_llm`. -/
theorem handleScreenCaptureResponse_invalid_silent
    (img : Option (List Char)) (text : List Char) (mm : MMOutcome)
    (h : img = none ∨ img = some [] ∨ text = []) :
    handleScreenCaptureResponse img text mm = ([], 0) := by
  rcases h with h | h | h
  · subst h; rfl
  · subst h; rfl
  · subst h
    cases img with
    | none => rfl
    | some s =>
      simp [handleScreenCaptureResponse, List.isEmpty]

/-- Witness for C10 at a concrete input: a response with no image but a
non-empty `original_text` is dropped silently. -/
theorem handleScreenCaptureResponse_invalid_silent_witness :
    handleScreenCaptureResponse none (chars "what is on my screen") .fail = ([], 0) :=
  handleScreenCaptureResponse_invalid_silent none (chars "what is on my screen") .fail
    (Or.inl rfl)

/-! ### C8 — screen-trigger cascade -/

/-- A filter is nonempty when something satisfies the predicate. -/
lemma filter_isEmpty_false {α : Type} (p : α → Bool) (l : List α)
    (h : ∃ a ∈ l, p a = true) : (l.filter p).isEmpty = false := by
  rw [List.isEmpty_eq_false_iff_exists_mem]
  obtain ⟨a, ha, hpa⟩ := h
  exact ⟨a, List.mem_filter.mpr ⟨ha, hpa⟩⟩

/-- A filter is empty when nothing satisfies the predicate. -/
lemma filter_isEmpty_true {α : Type} (p : α → Bool) (l : List α)
    (h : ¬∃ a ∈ l, p a = true) : (l.filter p).isEmpty = true := by
  cases hx : (l.filter p).isEmpty with
  | true => rfl
  | false =>
    rw [List.isEmpty_eq_false_iff_exists_mem] at hx
    obtain ⟨a, ha⟩ := hx
    rw [List.mem_filter] at ha
    exact absurd ⟨a, ha.1, ha.2⟩ h

/-- C8, counterexample: the transcript "error what now" does not start
with any question indicator, yet the detector assigns confidence 0.8
with reason `context_question`, because `question_matches` also accepts
an indicator preceded by a space anywhere in the text (here " what"). -/
theorem checkText_contextQuestion_without_startsWith :
    (checkTextForScreenTriggers (chars "error what now")).confidence = mkRat 8 10 ∧
    (checkTextForScreenTriggers (chars "error what now")).reason =
      chars "context_question" ∧
    ∀ q ∈ questionIndicators,
      hasPref q (lowerStr (chars "error what now")) = false := by
  decide

/-- C8, amended: the detector assigns `(confidence, reason)` by the
first matching rule, in the claim's order, with one repair: a question
indicator counts as matched when the transcript *starts with* it or
*contains it preceded by a space* (the same matching used by both the
0.8 and the 0.5 rule). -/
theorem checkTextForScreenTriggers_rule_order (text : List Char) :
    (explicitHit text →
      (checkTextForScreenTriggers text).confidence = mkRat 9 10 ∧
      (checkTextForScreenTriggers text).reason = chars "explicit_trigger") ∧
    (¬explicitHit text → contextHit text → questionHit text →
      (checkTextForScreenTriggers text).confidence = mkRat 8 10 ∧
      (checkTextForScreenTriggers text).reason = chars "context_question") ∧
    (¬explicitHit text → contextHit text → ¬questionHit text → tokenCount text > 3 →
      (checkTextForScreenTriggers text).confidence = mkRat 6 10 ∧
      (checkTextForScreenTriggers text).reason = chars "context_phrase") ∧
    (¬explicitHit text → ¬contextHit text → questionHit text → tokenCount text > 4 →
      (checkTextForScreenTriggers text).confidence = mkRat 5 10 ∧
      (checkTextForScreenTriggers text).reason = chars "general_question") ∧
    (¬explicitHit text → ¬(contextHit text ∧ questionHit text) →
      ¬(contextHit text ∧ tokenCount text > 3) →
      ¬(questionHit text ∧ tokenCount text > 4) →
      (checkTextForScreenTriggers text).confidence = 0 ∧
      (checkTextForScreenTriggers text).reason = chars "no_triggers") := by
  refine ⟨?_, ?_, ?_, ?_, ?_⟩
  · intro hE
    have h1 := filter_isEmpty_false _ _ hE
    simp [checkTextForScreenTriggers, h1]
  · intro hnE hC hQ
    have h1 := filter_isEmpty_true _ _ hnE
    have h2 := filter_isEmpty_false _ _ hC
    have h3 := filter_isEmpty_false _ _ hQ
    simp [checkTextForScreenTriggers, h1, h2, h3]
  · intro hnE hC hnQ ht
    have h1 := filter_isEmpty_true _ _ hnE
    have h2 := filter_isEmpty_false _ _ hC
    have h3 := filter_isEmpty_true _ _ hnQ
    simp [checkTextForScreenTriggers, h1, h2, h3, tokenCount] at ht ⊢
    simp [ht]
  · intro hnE hnC hQ ht
    have h1 := filter_isEmpty_true _ _ hnE
    have h2 := filter_isEmpty_true _ _ hnC
    have h3 := filter_isEmpty_false _ _ hQ
    simp [checkTextForScreenTriggers, h1, h2, h3, tokenCount] at ht ⊢
    simp [ht]
  · intro hnE hCQ hCT hQT
    have h1 := filter_isEmpty_true _ _ hnE
    by_cases hC : contextHit text
    · have hnQ : ¬questionHit text := fun hQ => hCQ ⟨hC, hQ⟩
      have hnT : ¬tokenCount text > 3 := fun ht => hCT ⟨hC, ht⟩
      have h2 := filter_isEmpty_false _ _ hC
      have h3 := filter_isEmpty_true _ _ hnQ
      simp only [tokenCount, gt_iff_lt] at hnT
      simp [checkTextForScreenTriggers, h1, h2, h3, hnT]
    · have h2 := filter_isEmpty_true _ _ hC
      by_cases hQ : questionHit text
      · have hnT : ¬tokenCount text > 4 := fun ht => hQT ⟨hQ, ht⟩
        have h3 := filter_isEmpty_false _ _ hQ
        simp only [tokenCount, gt_iff_lt] at hnT
        simp [checkTextForScreenTriggers, h1, h2, h3, hnT]
      · have h3 := filter_isEmpty_true _ _ hQ
        simp [checkTextForScreenTriggers, h1, h2, h3]

/-- Witness for the C8 cascade at a concrete transcript: the claim's
own example "what do you see on my screen" carries an explicit trigger
and is scored 0.9 / `explicit_trigger`. -/
theorem checkTextForScreenTriggers_rule_order_witness :
    (checkTextForScreenTriggers (chars "what do you see on my screen")).confidence =
      mkRat 9 10 ∧
    (checkTextForScreenTriggers (chars "what do you see on my screen")).reason =
      chars "explicit_trigger" :=
  (checkTextForScreenTriggers_rule_order (chars "what do you see on my screen")).1
    (by unfold explicitHit; decide)

/-! ### C9 — performance-monitor statistics invariants -/

/-- One `_update_service_stats` call keeps `total = successes + failures`
moving in lockstep. -/
lemma updateServiceStats_counts (stats : ServiceStats) (success : Bool) (d : ℚ) :
    (updateServiceStats stats success d).totalRequests =
      stats.totalRequests + 1 ∧
    (updateServiceStats stats success d).successfulRequests +
        (updateServiceStats stats success d).failedRequests =
      stats.successfulRequests + stats.failedRequests + 1 := by
  cases success <;> simp [updateServiceStats] <;> omega

/-- The per-entry counter invariant of the stats table. -/
def statsEntryOk (e : List Char × ServiceStats) : Bool :=
  e.2.totalRequests == e.2.successfulRequests + e.2.failedRequests

/-- `record_metric`'s table update preserves the counter invariant. -/
lemma updateStatsTable_preserves (table : List (List Char × ServiceStats))
    (svc : List Char) (success : Bool) (d : ℚ)
    (h : table.all statsEntryOk = true) :
    (updateStatsTable table svc success d).all statsEntryOk = true := by
  induction table with
  | nil =>
    simp only [updateStatsTable, List.all_cons, List.all_nil, Bool.and_true,
      statsEntryOk, beq_iff_eq]
    have hc := updateServiceStats_counts ServiceStats.init success d
    have h0 : ServiceStats.init.totalRequests =
        ServiceStats.init.successfulRequests + ServiceStats.init.failedRequests := rfl
    omega
  | cons e t ih =>
    simp only [List.all_cons, Bool.and_eq_true] at h
    simp only [updateStatsTable]
    split_ifs with hk
    · simp only [List.all_cons, Bool.and_eq_true]
      refine ⟨?_, h.2⟩
      have hc := updateServiceStats_counts e.2 success d
      simp only [statsEntryOk, beq_iff_eq] at h ⊢
      omega
    · simp only [List.all_cons, Bool.and_eq_true]
      exact ⟨h.1, ih h.2⟩

/-- C9: across any history of `record_metric` calls every tracked
service satisfies `total_requests = successful_requests +
failed_requests`, and a failed sample changes none of the rolling
duration statistics — `min`, `max`, `avg` and the rolling window are
updated only by successful samples. -/
theorem performanceMonitor_invariants :
    (∀ calls : List (List Char × Bool × ℚ),
      (runRecordMetrics calls).all statsEntryOk = true) ∧
    (∀ (stats : ServiceStats) (d : ℚ),
      (updateServiceStats stats false d).minDuration = stats.minDuration ∧
      (updateServiceStats stats false d).maxDuration = stats.maxDuration ∧
      (updateServiceStats stats false d).avgDuration = stats.avgDuration ∧
      (updateServiceStats stats false d).recentDurations = stats.recentDurations) := by
  constructor
  · intro calls
    rw [runRecordMetrics]
    have main : ∀ (cs : List (List Char × Bool × ℚ))
        (table : List (List Char × ServiceStats)),
        table.all statsEntryOk = true →
        (cs.foldl (fun mon c => updateStatsTable mon c.1 c.2.1 c.2.2) table).all
          statsEntryOk = true := by
      intro cs
      induction cs with
      | nil => intro table h; exact h
      | cons c t ih =>
        intro table h
        exact ih _ (updateStatsTable_preserves table c.1 c.2.1 c.2.2 h)
    exact main calls ([] : List (List Char × ServiceStats)) rfl
  · intro stats d
    exact ⟨rfl, rfl, rfl, rfl⟩

/-! ### C2 — one transcription per utterance, ahead of any AI response -/

/-- The multimodal path never emits a `transcription_result`. -/
lemma count_transcription_processWithMultimodal (mm : MMOutcome) :
    (processWithMultimodalMsgs mm).count .transcriptionResult = 0 := by
  cases mm with
  | unavailable => rfl
  | fail => rfl
  | ok t => cases t <;> rfl

/-- Neither branch of the screen-check flow emits a
`transcription_result`. -/
lemma count_transcription_screenCheck (text : List Char)
    (si : Option (List Char)) (sso : Bool) (mm : MMOutcome) :
    (handleTranscriptionWithScreenCheck text si sso mm).count .transcriptionResult = 0 := by
  simp only [handleTranscriptionWithScreenCheck]
  split_ifs <;>
    first
      | exact count_transcription_processWithMultimodal mm
      | rfl

/-- Resumed deferred turns never emit a `transcription_result`. -/
lemma count_transcription_resumptions
    (res : List (Option (List Char) × List Char × MMOutcome)) :
    (res.foldr (fun r acc => (handleScreenCaptureResponse r.1 r.2.1 r.2.2).1 ++ acc)
      []).count .transcriptionResult = 0 := by
  induction res with
  | nil => rfl
  | cons r t ih =>
    simp only [List.foldr_cons, List.count_append, ih, Nat.add_zero]
    rw [handleScreenCaptureResponse]
    split_ifs
    · exact count_transcription_processWithMultimodal _
    · rfl

/-- C2, counterexample: an utterance completes (a chunk is emitted), but
its transcription comes back empty — as `transcribe_chunk` returns on an
engine failure — and the handler emits nothing at all: zero
`transcription_result` messages for this utterance, not one. -/
theorem utteranceMsgs_empty_transcription_counterexample :
    utteranceMsgs (some gapSession.toAudioChunk) [] true none true (.ok .ok) [] = [] ∧
    (utteranceMsgs (some gapSession.toAudioChunk) [] true none true
      (.ok .ok) []).count .transcriptionResult = 0 := by
  exact ⟨rfl, rfl⟩

/-- C2, amended: for every utterance whose transcription text is
non-empty, the per-utterance message trace — including any later
resumption of a deferred turn — starts with exactly one
`transcription_result`, and no later position holds another; in
particular every `ai_response` for the utterance comes after it.  An
utterance with an empty transcription emits neither. -/
theorem utteranceMsgs_transcription_first (c : AudioChunk) (text : List Char)
    (vad : Bool) (si : Option (List Char)) (sso : Bool) (mm : MMOutcome)
    (res : List (Option (List Char) × List Char × MMOutcome))
    (h : text ≠ []) :
    ∃ rest, utteranceMsgs (some c) text vad si sso mm res =
      .transcriptionResult :: rest ∧
      rest.count .transcriptionResult = 0 := by
  have hne : (!text.isEmpty) = true := by
    simp [List.isEmpty_iff, h]
  refine ⟨handleTranscriptionWithScreenCheck text si sso mm ++
    res.foldr (fun r acc => (handleScreenCaptureResponse r.1 r.2.1 r.2.2).1 ++ acc) [],
    ?_, ?_⟩
  · rw [utteranceMsgs, handleAudioDataMsgs, if_pos hne]
    simp
  · rw [List.count_append, count_transcription_screenCheck,
      count_transcription_resumptions]

/-- Witness for C2 (amended) at a concrete utterance: text "hi", no
screen image, screen share off, a successful LLM and TTS turn. -/
theorem utteranceMsgs_transcription_first_witness :
    ∃ rest, utteranceMsgs (some gapSession.toAudioChunk) (chars "hi") true none false
      (.ok .ok) [] = .transcriptionResult :: rest ∧
      rest.count .transcriptionResult = 0 :=
  utteranceMsgs_transcription_first gapSession.toAudioChunk (chars "hi") true none false
    (.ok .ok) [] (by decide)

/-! ### C7 — framed round trip: digit and integer lemmas -/

/-- The digit character of `d < 10` is a digit and carries `d`. -/
lemma digitChar_spec (d : Nat) (h : d < 10) :
    isDig (digitChar d) = true ∧ (digitChar d).toNat - '0'.toNat = d := by
  interval_cases d <;> exact ⟨by decide, by decide⟩

/-- `digitsVal` peels its last digit. -/
lemma digitsVal_append_digit (ds : List Char) (c : Char) :
    digitsVal (ds ++ [c]) = digitsVal ds * 10 + (c.toNat - '0'.toNat) := by
  rw [digitsVal, digitsVal, List.foldl_append]
  rfl

/-- `natDigitsAux` below its fuel: nonempty, all digits, and `digitsVal`
recovers the number. -/
lemma natDigitsAux_spec : ∀ (fuel n : Nat), n < fuel →
    natDigitsAux fuel n ≠ [] ∧ (∀ c ∈ natDigitsAux fuel n, isDig c = true) ∧
    digitsVal (natDigitsAux fuel n) = n := by
  intro fuel
  induction fuel with
  | zero => intro n h; omega
  | succ f ih =>
    intro n h
    by_cases h10 : n < 10
    · simp only [natDigitsAux, if_pos h10]
      refine ⟨by simp, ?_, ?_⟩
      · intro c hc
        rw [List.mem_singleton] at hc
        subst hc
        exact (digitChar_spec n h10).1
      · have := digitsVal_append_digit [] (digitChar n)
        simp only [List.nil_append] at this
        rw [this, (digitChar_spec n h10).2]
        simp [digitsVal]
    · simp only [natDigitsAux, if_neg h10]
      have hlt : n / 10 < f := by omega
      obtain ⟨hne, hdig, hval⟩ := ih (n / 10) hlt
      have hmod := digitChar_spec (n % 10) (by omega)
      refine ⟨by simp, ?_, ?_⟩
      · intro c hc
        rw [List.mem_append] at hc
        cases hc with
        | inl hc => exact hdig c hc
        | inr hc =>
          rw [List.mem_singleton] at hc
          subst hc
          exact hmod.1
      · rw [digitsVal_append_digit, hval, hmod.2]
        omega

/-- `natDigits n` is nonempty, all digits, and parses back to `n`. -/
lemma natDigits_spec (n : Nat) :
    natDigits n ≠ [] ∧ (∀ c ∈ natDigits n, isDig c = true) ∧
    digitsVal (natDigits n) = n :=
  natDigitsAux_spec (n + 1) n (by omega)

/-- A digit character is none of the structural characters the parsers
dispatch on, and no kind of whitespace. -/
lemma isDig_not_special (c : Char) (h : isDig c = true) :
    c ≠ '-' ∧ c ≠ '+' ∧ c ≠ 'n' ∧ c ≠ 't' ∧ c ≠ 'f' ∧ c ≠ '"' ∧ c ≠ '[' ∧
    c ≠ '\x7b' ∧ c ≠ ']' ∧ c ≠ '\x7d' ∧ jWs c = false ∧ isPySpace c = false ∧
    c ≠ '\n' ∧ c ≠ '\r' ∧ c ≠ ':' := by
  have hne : ∀ d : Char, isDig d = false → c ≠ d := by
    intro d hd he
    subst he
    rw [h] at hd
    exact Bool.noConfusion hd
  refine ⟨hne '-' (by decide), hne '+' (by decide), hne 'n' (by decide),
    hne 't' (by decide), hne 'f' (by decide), hne '"' (by decide),
    hne '[' (by decide), hne '\x7b' (by decide), hne ']' (by decide),
    hne '\x7d' (by decide), ?_, ?_, hne '\n' (by decide), hne '\r' (by decide),
    hne ':' (by decide)⟩
  · cases hw : jWs c
    · rfl
    · exfalso
      simp only [jWs, Bool.or_eq_true, beq_iff_eq, or_assoc] at hw
      rcases hw with h1 | h1 | h1 | h1 <;> subst h1 <;> exact absurd h (by decide)
  · cases hw : isPySpace c
    · rfl
    · exfalso
      simp only [isPySpace, Bool.or_eq_true, beq_iff_eq, or_assoc] at hw
      rcases hw with h1 | h1 | h1 | h1 | h1 | h1 <;> subst h1 <;>
        exact absurd h (by decide)

/-- `takeDigits` stops before a delimiter (or at the end). -/
lemma takeDigits_delim (rest : List Char) (h : jDelim rest = true) :
    takeDigits rest = ([], rest) := by
  cases rest with
  | nil => rfl
  | cons c t =>
    simp only [jDelim, Bool.or_eq_true, beq_iff_eq, or_assoc] at h
    have hd : isDig c = false := by
      rcases h with h | h | h <;> subst h <;> decide
    simp [takeDigits, hd]

/-- `takeDigits` consumes exactly a digit run followed by a stop. -/
lemma takeDigits_run (ds rest : List Char) (hds : ∀ c ∈ ds, isDig c = true)
    (hstop : takeDigits rest = ([], rest)) :
    takeDigits (ds ++ rest) = (ds, rest) := by
  induction ds with
  | nil => simpa using hstop
  | cons c t ih =>
    have hc : isDig c = true := hds c (by simp)
    have ht := ih (fun x hx => hds x (by simp [hx]))
    simp [takeDigits, hc, ht]

/-- Parsing a serialised integer recovers it, up to a delimiter. -/
lemma parseIntTok_dumpInt (i : Int) (rest : List Char) (h : jDelim rest = true) :
    parseIntTok (dumpInt i ++ rest) = some (i, rest) := by
  obtain ⟨hne, hdig, hval⟩ := natDigits_spec i.natAbs
  have hrun := takeDigits_run (natDigits i.natAbs) rest hdig (takeDigits_delim rest h)
  by_cases hneg : i < 0
  · have harg : dumpInt i ++ rest = '-' :: (natDigits i.natAbs ++ rest) := by
      simp [dumpInt, hneg]
    rw [harg, parseIntTok]
    simp only [beq_self_eq_true, if_pos]
    rw [hrun]
    obtain ⟨c, t, hct⟩ : ∃ c t, natDigits i.natAbs = c :: t := by
      cases hx : natDigits i.natAbs with
      | nil => exact absurd hx hne
      | cons c t => exact ⟨c, t, rfl⟩
    rw [hct]
    have : -(digitsVal (natDigits i.natAbs) : Int) = i := by
      rw [hval]
      omega
    rw [hct] at this
    simp [this]
  · obtain ⟨c, t, hct⟩ : ∃ c t, natDigits i.natAbs = c :: t := by
      cases hx : natDigits i.natAbs with
      | nil => exact absurd hx hne
      | cons c t => exact ⟨c, t, rfl⟩
    have hcd : isDig c = true := hdig c (by rw [hct]; simp)
    have hcm : (c == '-') = false :=
      beq_eq_false_iff_ne.mpr (isDig_not_special c hcd).1
    have harg : dumpInt i ++ rest = c :: (t ++ rest) := by
      simp [dumpInt, hneg, hct]
    rw [harg, parseIntTok, hcm]
    rw [hct, List.cons_append] at hrun
    simp only [Bool.false_eq_true, if_neg, hrun]
    have : (digitsVal (c :: t) : Int) = i := by
      rw [← hct, hval]
      omega
    simp [this]

/-! ### C7 — string escape round trip -/

/-- A hex digit character decodes to its value. -/
lemma hexDigitVal_hexDigit (d : Nat) (h : d < 16) :
    hexDigitVal (hexDigit d) = some d := by
  interval_cases d <;> decide

/-- The four-digit hex rendering of `n < 0x10000` decodes to `n`. -/
lemma hex4Val_hex4 (n : Nat) (h : n < 65536) :
    hex4Val (hexDigit (n / 4096 % 16)) (hexDigit (n / 256 % 16))
      (hexDigit (n / 16 % 16)) (hexDigit (n % 16)) = some n := by
  rw [hex4Val, hexDigitVal_hexDigit _ (by omega), hexDigitVal_hexDigit _ (by omega),
    hexDigitVal_hexDigit _ (by omega), hexDigitVal_hexDigit _ (by omega)]
  have : ((n / 4096 % 16 * 16 + n / 256 % 16) * 16 + n / 16 % 16) * 16 + n % 16 = n := by
    omega
  simp [this]

/-- Every character's code point avoids the surrogate block and is below
0x110000. -/
lemma char_range (c : Char) :
    c.toNat < 0xd800 ∨ (0xdfff < c.toNat ∧ c.toNat < 0x110000) := c.valid

/-- `Char.ofNat` at a valid code point carries it. -/
lemma toNat_ofNat_valid (n : Nat) (h : Nat.isValidChar n) :
    (Char.ofNat n).toNat = n := by
  rw [Char.ofNat, dif_pos h]
  rfl

/-- Parsing one escaped character prepends it to the rest of the parse. -/
lemma parseStrBody_escapeChar (c : Char) (s : List Char) :
    parseStrBody (escapeChar c ++ s) = consStr c (parseStrBody s) := by
  have hb : ∀ d : Char, c ≠ d → ¬((c == d) = true) :=
    fun d hd hc => hd (beq_iff_eq.mp hc)
  by_cases h1 : c = '"'
  · subst h1
    show parseStrBody ('\\' :: '"' :: s) = _
    rw [parseStrBody, if_neg (by decide), if_pos (by decide)]
    simp [parseEsc, unescapeChar]
  by_cases h2 : c = '\\'
  · subst h2
    show parseStrBody ('\\' :: '\\' :: s) = _
    rw [parseStrBody, if_neg (by decide), if_pos (by decide)]
    simp [parseEsc, unescapeChar]
  by_cases h3 : c = '\n'
  · subst h3
    show parseStrBody ('\\' :: 'n' :: s) = _
    rw [parseStrBody, if_neg (by decide), if_pos (by decide)]
    simp [parseEsc, unescapeChar]
  by_cases h4 : c = '\r'
  · subst h4
    show parseStrBody ('\\' :: 'r' :: s) = _
    rw [parseStrBody, if_neg (by decide), if_pos (by decide)]
    simp [parseEsc, unescapeChar]
  by_cases h5 : c = '\t'
  · subst h5
    show parseStrBody ('\\' :: 't' :: s) = _
    rw [parseStrBody, if_neg (by decide), if_pos (by decide)]
    simp [parseEsc, unescapeChar]
  by_cases h6 : c = '\x08'
  · subst h6
    show parseStrBody ('\\' :: 'b' :: s) = _
    rw [parseStrBody, if_neg (by decide), if_pos (by decide)]
    simp [parseEsc, unescapeChar]
  by_cases h7 : c = '\x0c'
  · subst h7
    show parseStrBody ('\\' :: 'f' :: s) = _
    rw [parseStrBody, if_neg (by decide), if_pos (by decide)]
    simp [parseEsc, unescapeChar]
  have he : escapeChar c =
      (if c.toNat < 0x20 then '\\' :: 'u' :: hex4 c.toNat
       else if c.toNat ≤ 0x7e then [c]
       else if c.toNat < 0x10000 then '\\' :: 'u' :: hex4 c.toNat
       else '\\' :: 'u' :: hex4 (0xd800 + (c.toNat - 0x10000) / 1024) ++
         ('\\' :: 'u' :: hex4 (0xdc00 + (c.toNat - 0x10000) % 1024))) := by
    rw [escapeChar, if_neg (hb _ h1), if_neg (hb _ h2), if_neg (hb _ h3),
      if_neg (hb _ h4), if_neg (hb _ h5), if_neg (hb _ h6), if_neg (hb _ h7)]
  by_cases hA : c.toNat < 0x20
  · rw [he, if_pos hA, hex4]
    show parseStrBody ('\\' :: 'u' :: hexDigit (c.toNat / 4096 % 16) ::
      hexDigit (c.toNat / 256 % 16) :: hexDigit (c.toNat / 16 % 16) ::
      hexDigit (c.toNat % 16) :: s) = _
    rw [parseStrBody, if_neg (by decide), if_pos (by decide), parseEsc,
      hex4Val_hex4 c.toNat (by omega)]
    dsimp only
    rw [if_neg (by omega)]
    rw [show Char.ofNat c.toNat = c from Char.ofNat_toNat c]
  · by_cases hB : c.toNat ≤ 0x7e
    · rw [he, if_neg hA, if_pos hB]
      show parseStrBody (c :: s) = _
      rw [parseStrBody, if_neg (hb _ h1), if_neg (hb _ h2)]
    · have hrange := char_range c
      by_cases hC : c.toNat < 0x10000
      · rw [he, if_neg hA, if_neg hB, if_pos hC, hex4]
        show parseStrBody ('\\' :: 'u' :: hexDigit (c.toNat / 4096 % 16) ::
          hexDigit (c.toNat / 256 % 16) :: hexDigit (c.toNat / 16 % 16) ::
          hexDigit (c.toNat % 16) :: s) = _
        rw [parseStrBody, if_neg (by decide), if_pos (by decide), parseEsc,
          hex4Val_hex4 c.toNat (by omega)]
        dsimp only
        rw [if_neg (by omega)]
        rw [show Char.ofNat c.toNat = c from Char.ofNat_toNat c]
      · rw [he, if_neg hA, if_neg hB, if_neg hC, hex4, hex4]
        show parseStrBody ('\\' :: 'u' ::
          hexDigit ((0xd800 + (c.toNat - 0x10000) / 1024) / 4096 % 16) ::
          hexDigit ((0xd800 + (c.toNat - 0x10000) / 1024) / 256 % 16) ::
          hexDigit ((0xd800 + (c.toNat - 0x10000) / 1024) / 16 % 16) ::
          hexDigit ((0xd800 + (c.toNat - 0x10000) / 1024) % 16) :: ('\\' :: 'u' ::
          hexDigit ((0xdc00 + (c.toNat - 0x10000) % 1024) / 4096 % 16) ::
          hexDigit ((0xdc00 + (c.toNat - 0x10000) % 1024) / 256 % 16) ::
          hexDigit ((0xdc00 + (c.toNat - 0x10000) % 1024) / 16 % 16) ::
          hexDigit ((0xdc00 + (c.toNat - 0x10000) % 1024) % 16) :: s)) = _
        rw [parseStrBody, if_neg (by decide), if_pos (by decide), parseEsc,
          hex4Val_hex4 _ (by omega)]
        dsimp only
        rw [if_pos (by omega), parseLowSurrogate, hex4Val_hex4 _ (by omega)]
        dsimp only
        rw [if_pos (by omega)]
        have hcomb : 0x10000 +
            ((0xd800 + (c.toNat - 0x10000) / 1024) - 0xd800) * 1024 +
            ((0xdc00 + (c.toNat - 0x10000) % 1024) - 0xdc00) = c.toNat := by
          omega
        rw [hcomb, show Char.ofNat c.toNat = c from Char.ofNat_toNat c]

/-- Parsing an escaped body up to a closing quote recovers the string. -/
lemma parseStrBody_escaped (s : List Char) : ∀ rest : List Char,
    parseStrBody (s.flatMap escapeChar ++ '"' :: rest) = some (s, rest) := by
  induction s with
  | nil =>
    intro rest
    show parseStrBody ('"' :: rest) = some ([], rest)
    rw [parseStrBody, if_pos (by decide)]
  | cons c t ih =>
    intro rest
    rw [List.flatMap_cons, List.append_assoc, parseStrBody_escapeChar, ih rest]
    rfl

/-! ### C7 — value parser dispatch lemmas -/

/-- `skipJWs` does nothing before a non-whitespace head. -/
lemma skipJWs_cons_nows (c : Char) (t : List Char) (h : jWs c = false) :
    skipJWs (c :: t) = c :: t := by
  rw [skipJWs, if_neg (by simp [h])]

/-- `skipJWs` eats one leading space. -/
lemma skipJWs_cons_space (t : List Char) : skipJWs (' ' :: t) = skipJWs t := by
  rw [skipJWs, if_pos (by decide)]

/-- The value parser ignores one leading space. -/
lemma parseJVal_cons_space (fuel : Nat) (t : List Char) :
    parseJVal fuel (' ' :: t) = parseJVal fuel t := by
  cases fuel with
  | zero => rfl
  | succ f => rw [parseJVal, parseJVal, skipJWs_cons_space]

/-- The item parser ignores one leading space. -/
lemma parseJItems_cons_space (fuel : Nat) (t : List Char) :
    parseJItems fuel (' ' :: t) = parseJItems fuel t := by
  cases fuel with
  | zero => rfl
  | succ f => rw [parseJItems, parseJItems, parseJVal_cons_space]

/-- The member parser ignores one leading space. -/
lemma parseJMembers_cons_space (fuel : Nat) (t : List Char) :
    parseJMembers fuel (' ' :: t) = parseJMembers fuel t := by
  cases fuel with
  | zero => rfl
  | succ f => rw [parseJMembers, parseJMembers, skipJWs_cons_space]

/-- A non-whitespace head that opens no structural token sends the value
parser to the integer token. -/
lemma parseJVal_to_int (fuel : Nat) (c : Char) (t : List Char)
    (hws : jWs c = false) (hn : c ≠ 'n') (ht : c ≠ 't') (hf : c ≠ 'f')
    (hq : c ≠ '"') (hbk : c ≠ '[') (hbc : c ≠ '\x7b') :
    parseJVal (fuel + 1) (c :: t) =
      (match parseIntTok (c :: t) with
       | some (n, r) => some (.int n, r)
       | none => none) := by
  rw [parseJVal, skipJWs_cons_nows c t hws]
  simp [hn, ht, hf, hq, hbk, hbc]

/-- A bracketed input whose first item starts with a non-whitespace,
non-`]` character routes through the item parser. -/
lemma parseJVal_to_items (fuel : Nat) (c : Char) (t : List Char)
    (hws : jWs c = false) (hne : c ≠ ']') :
    parseJVal (fuel + 1) ('[' :: c :: t) =
      (match parseJItems fuel (c :: t) with
       | some (vs, r) => some (.arr vs, r)
       | none => none) := by
  rw [parseJVal, skipJWs_cons_nows '[' (c :: t) (by decide)]
  show (match skipJWs (c :: t) with
    | ']' :: r1 => some (Jval.arr [], r1)
    | r1 =>
      match parseJItems fuel r1 with
      | some (items, r2) => some (Jval.arr items, r2)
      | none => none) = _
  rw [skipJWs_cons_nows c t hws]
  simp [hne]

/-- A braced input whose first member starts with a non-whitespace,
non-`}` character routes through the member parser. -/
lemma parseJVal_to_members (fuel : Nat) (c : Char) (t : List Char)
    (hws : jWs c = false) (hne : c ≠ '\x7d') :
    parseJVal (fuel + 1) ('\x7b' :: c :: t) =
      (match parseJMembers fuel (c :: t) with
       | some (ms, r) => some (.obj ms, r)
       | none => none) := by
  rw [parseJVal, skipJWs_cons_nows '\x7b' (c :: t) (by decide)]
  show (match skipJWs (c :: t) with
    | '\x7d' :: r1 => some (Jval.obj [], r1)
    | r1 =>
      match parseJMembers fuel r1 with
      | some (ms, r2) => some (Jval.obj ms, r2)
      | none => none) = _
  rw [skipJWs_cons_nows c t hws]
  simp [hne]

/-- Every serialised integer starts with a minus sign or a digit. -/
lemma dumpInt_head (i : Int) :
    ∃ c t, dumpInt i = c :: t ∧ (c = '-' ∨ isDig c = true) := by
  obtain ⟨hne, hdig, -⟩ := natDigits_spec i.natAbs
  by_cases hneg : i < 0
  · exact ⟨'-', natDigits i.natAbs, by simp [dumpInt, hneg], Or.inl rfl⟩
  · obtain ⟨c, t, hct⟩ : ∃ c t, natDigits i.natAbs = c :: t := by
      cases hx : natDigits i.natAbs with
      | nil => exact absurd hx hne
      | cons c t => exact ⟨c, t, rfl⟩
    refine ⟨c, t, by simp [dumpInt, hneg, hct], Or.inr ?_⟩
    exact hdig c (by rw [hct]; simp)

/-- Every serialised value starts with a character that is neither
whitespace nor a closing bracket, closing brace, or comma. -/
lemma dumpVal_head (x : Jval) :
    ∃ c t, dumpVal x = c :: t ∧ jWs c = false ∧ c ≠ ']' ∧ c ≠ '\x7d' := by
  cases x with
  | null => refine ⟨'n', _, rfl, ?_, ?_, ?_⟩ <;> decide
  | bool b => cases b <;> (refine ⟨_, _, rfl, ?_, ?_, ?_⟩ <;> decide)
  | str s => refine ⟨'"', _, rfl, ?_, ?_, ?_⟩ <;> decide
  | int i =>
    obtain ⟨c, t, hct, hc⟩ := dumpInt_head i
    refine ⟨c, t, hct, ?_, ?_, ?_⟩
    · rcases hc with h | h
      · subst h; decide
      · exact (isDig_not_special c h).2.2.2.2.2.2.2.2.2.2.1
    · rcases hc with h | h
      · subst h; decide
      · exact (isDig_not_special c h).2.2.2.2.2.2.2.2.1
    · rcases hc with h | h
      · subst h; decide
      · exact (isDig_not_special c h).2.2.2.2.2.2.2.2.2.1
  | arr items =>
    cases items with
    | nil => refine ⟨'[', _, rfl, ?_, ?_, ?_⟩ <;> decide
    | cons y ys => refine ⟨'[', _, rfl, ?_, ?_, ?_⟩ <;> decide
  | obj members =>
    cases members with
    | nil => refine ⟨'\x7b', _, rfl, ?_, ?_, ?_⟩ <;> decide
    | cons m ms =>
      obtain ⟨k, v⟩ := m
      refine ⟨'\x7b', _, rfl, ?_, ?_, ?_⟩ <;> decide

/-! ### C7 — round trip for the scalar values -/

/-- Parsing a serialised `null`. -/
lemma parseJVal_dump_null (f : Nat) (rest : List Char) :
    parseJVal (f + 1) (dumpVal .null ++ rest) = some (.null, rest) := by
  show parseJVal (f + 1) ('n' :: 'u' :: 'l' :: 'l' :: rest) = some (.null, rest)
  rw [parseJVal, skipJWs_cons_nows _ _ (by decide)]
  rfl

/-- Parsing a serialised boolean. -/
lemma parseJVal_dump_bool (b : Bool) (f : Nat) (rest : List Char) :
    parseJVal (f + 1) (dumpVal (.bool b) ++ rest) = some (.bool b, rest) := by
  cases b with
  | true =>
    show parseJVal (f + 1) ('t' :: 'r' :: 'u' :: 'e' :: rest) = some (.bool true, rest)
    rw [parseJVal, skipJWs_cons_nows _ _ (by decide)]
    rfl
  | false =>
    show parseJVal (f + 1) ('f' :: 'a' :: 'l' :: 's' :: 'e' :: rest) =
      some (.bool false, rest)
    rw [parseJVal, skipJWs_cons_nows _ _ (by decide)]
    rfl

/-- Parsing a serialised string. -/
lemma parseJVal_dump_str (s : List Char) (f : Nat) (rest : List Char) :
    parseJVal (f + 1) (dumpVal (.str s) ++ rest) = some (.str s, rest) := by
  have harg : dumpVal (.str s) ++ rest =
      '"' :: (s.flatMap escapeChar ++ ('"' :: rest)) := by
    simp [dumpVal, dumpStr]
  rw [harg, parseJVal, skipJWs_cons_nows _ _ (by decide)]
  show (match parseStrBody (s.flatMap escapeChar ++ ('"' :: rest)) with
    | some (s, r1) => some (Jval.str s, r1)
    | none => none) = _
  rw [parseStrBody_escaped s rest]

/-- Parsing a serialised integer value. -/
lemma parseJVal_dump_int (i : Int) (f : Nat) (rest : List Char)
    (hr : jDelim rest = true) :
    parseJVal (f + 1) (dumpVal (.int i) ++ rest) = some (.int i, rest) := by
  obtain ⟨c, t, hct, hc⟩ := dumpInt_head i
  have hspec : c ≠ 'n' ∧ c ≠ 't' ∧ c ≠ 'f' ∧ c ≠ '"' ∧ c ≠ '[' ∧ c ≠ '\x7b' ∧
      jWs c = false := by
    rcases hc with h | h
    · subst h
      exact ⟨by decide, by decide, by decide, by decide, by decide, by decide,
        by decide⟩
    · have hs := isDig_not_special c h
      exact ⟨hs.2.2.1, hs.2.2.2.1, hs.2.2.2.2.1, hs.2.2.2.2.2.1,
        hs.2.2.2.2.2.2.1, hs.2.2.2.2.2.2.2.1, hs.2.2.2.2.2.2.2.2.2.2.1⟩
  have harg : dumpVal (.int i) ++ rest = c :: (t ++ rest) := by
    show dumpInt i ++ rest = c :: (t ++ rest)
    rw [hct, List.cons_append]
  rw [harg, parseJVal_to_int f c (t ++ rest) hspec.2.2.2.2.2.2 hspec.1
    hspec.2.1 hspec.2.2.1 hspec.2.2.2.1 hspec.2.2.2.2.1 hspec.2.2.2.2.2.1]
  rw [show c :: (t ++ rest) = dumpInt i ++ rest from harg.symm]
  rw [parseIntTok_dumpInt i rest hr]

/-- Parsing a serialised empty array. -/
lemma parseJVal_dump_arr_nil (f : Nat) (rest : List Char) :
    parseJVal (f + 1) (dumpVal (.arr []) ++ rest) = some (.arr [], rest) := by
  show parseJVal (f + 1) ('[' :: ']' :: rest) = some (.arr [], rest)
  rw [parseJVal, skipJWs_cons_nows _ _ (by decide)]
  show (match skipJWs (']' :: rest) with
    | ']' :: r1 => some (Jval.arr [], r1)
    | r1 =>
      match parseJItems f r1 with
      | some (items, r2) => some (Jval.arr items, r2)
      | none => none) = _
  rw [skipJWs_cons_nows _ _ (by decide)]
  rfl

/-- Parsing a serialised empty object. -/
lemma parseJVal_dump_obj_nil (f : Nat) (rest : List Char) :
    parseJVal (f + 1) (dumpVal (.obj []) ++ rest) = some (.obj [], rest) := by
  show parseJVal (f + 1) ('\x7b' :: '\x7d' :: rest) = some (.obj [], rest)
  rw [parseJVal, skipJWs_cons_nows _ _ (by decide)]
  show (match skipJWs ('\x7d' :: rest) with
    | '\x7d' :: r1 => some (Jval.obj [], r1)
    | r1 =>
      match parseJMembers f r1 with
      | some (ms, r2) => some (Jval.obj ms, r2)
      | none => none) = _
  rw [skipJWs_cons_nows _ _ (by decide)]
  rfl

/-! ### C7 — the mutual round trip for values, items, and members -/

mutual
/-- Parsing a serialised value recovers it (fuel beyond the rendered
length, a delimiter after). -/
theorem parseJVal_dumpVal : ∀ (x : Jval) (fuel : Nat) (rest : List Char),
    (dumpVal x).length < fuel → jDelim rest = true →
    parseJVal fuel (dumpVal x ++ rest) = some (x, rest)
  | .null, fuel, rest, hf, _ => by
    cases fuel with
    | zero => exact absurd hf (Nat.not_lt_zero _)
    | succ f => exact parseJVal_dump_null f rest
  | .bool b, fuel, rest, hf, _ => by
    cases fuel with
    | zero => exact absurd hf (Nat.not_lt_zero _)
    | succ f => exact parseJVal_dump_bool b f rest
  | .str s, fuel, rest, hf, _ => by
    cases fuel with
    | zero => exact absurd hf (Nat.not_lt_zero _)
    | succ f => exact parseJVal_dump_str s f rest
  | .int i, fuel, rest, hf, hr => by
    cases fuel with
    | zero => exact absurd hf (Nat.not_lt_zero _)
    | succ f => exact parseJVal_dump_int i f rest hr
  | .arr [], fuel, rest, hf, _ => by
    cases fuel with
    | zero => exact absurd hf (Nat.not_lt_zero _)
    | succ f => exact parseJVal_dump_arr_nil f rest
  | .arr (x :: xs), fuel, rest, hf, hr => by
    cases fuel with
    | zero => exact absurd hf (Nat.not_lt_zero _)
    | succ f =>
      obtain ⟨c, t, hct, hws, hbr, _⟩ := dumpVal_head x
      have hA : (dumpVal x ++ dumpArrTail xs) ++ ']' :: rest =
          c :: (t ++ (dumpArrTail xs ++ ']' :: rest)) := by
        rw [hct]
        simp [List.append_assoc]
      have harg : dumpVal (.arr (x :: xs)) ++ rest =
          '[' :: (c :: (t ++ (dumpArrTail xs ++ ']' :: rest))) := by
        show ('[' :: (dumpVal x ++ dumpArrTail xs ++ [']'])) ++ rest = _
        rw [← hA]
        simp [List.append_assoc]
      have hfb : (dumpVal x ++ dumpArrTail xs).length + 1 < f := by
        have h2 : (dumpVal (Jval.arr (x :: xs))).length =
            (dumpVal x ++ dumpArrTail xs).length + 2 := by
          show ('[' :: (dumpVal x ++ dumpArrTail xs ++ [']'])).length = _
          simp
          omega
        omega
      rw [harg, parseJVal_to_items f c _ hws hbr, ← hA,
        parseJItems_dumpItems x xs f rest hfb hr]
  | .obj [], fuel, rest, hf, _ => by
    cases fuel with
    | zero => exact absurd hf (Nat.not_lt_zero _)
    | succ f => exact parseJVal_dump_obj_nil f rest
  | .obj ((k, v) :: ms), fuel, rest, hf, hr => by
    cases fuel with
    | zero => exact absurd hf (Nat.not_lt_zero _)
    | succ f =>
      have hB : (dumpStr k ++ ':' :: ' ' :: (dumpVal v ++ dumpObjTail ms)) ++
          '\x7d' :: rest =
          '"' :: ((k.flatMap escapeChar ++ ['"']) ++
            (':' :: ' ' :: ((dumpVal v ++ dumpObjTail ms) ++ '\x7d' :: rest))) := by
        show ('"' :: (k.flatMap escapeChar ++ ['"']) ++
          ':' :: ' ' :: (dumpVal v ++ dumpObjTail ms)) ++ '\x7d' :: rest = _
        simp [List.append_assoc]
      have harg : dumpVal (.obj ((k, v) :: ms)) ++ rest =
          '\x7b' :: ((dumpStr k ++ ':' :: ' ' :: (dumpVal v ++ dumpObjTail ms)) ++
            '\x7d' :: rest) := by
        show ('\x7b' :: (dumpStr k ++ ':' :: ' ' ::
          (dumpVal v ++ dumpObjTail ms ++ ['\x7d']))) ++ rest = _
        simp [List.append_assoc]
      have hfb : (dumpStr k ++ ':' :: ' ' ::
          (dumpVal v ++ dumpObjTail ms)).length + 1 < f := by
        have h2 : (dumpVal (Jval.obj ((k, v) :: ms))).length =
            (dumpStr k ++ ':' :: ' ' :: (dumpVal v ++ dumpObjTail ms)).length + 2 := by
          show ('\x7b' :: (dumpStr k ++ ':' :: ' ' ::
            (dumpVal v ++ dumpObjTail ms ++ ['\x7d']))).length = _
          simp
          omega
        omega
      rw [harg, hB, parseJVal_to_members f '"' _ (by decide) (by decide), ← hB,
        parseJMembers_dumpMembers k v ms f rest hfb hr]
termination_by x _ _ _ _ => sizeOf x

/-- Parsing a serialised nonempty item list up to the closing bracket
recovers the items. -/
theorem parseJItems_dumpItems : ∀ (x : Jval) (xs : List Jval) (fuel : Nat)
    (rest : List Char),
    (dumpVal x ++ dumpArrTail xs).length + 1 < fuel → jDelim rest = true →
    parseJItems fuel ((dumpVal x ++ dumpArrTail xs) ++ ']' :: rest) =
      some (x :: xs, rest)
  | x, [], fuel, rest, hf, hr => by
    cases fuel with
    | zero => exact absurd hf (Nat.not_lt_zero _)
    | succ f =>
      have harg : (dumpVal x ++ dumpArrTail []) ++ ']' :: rest =
          dumpVal x ++ (']' :: rest) := by
        simp [dumpArrTail]
      have hfv : (dumpVal x).length < f := by
        have h2 : (dumpVal x ++ dumpArrTail []).length = (dumpVal x).length := by
          simp [dumpArrTail]
        omega
      rw [parseJItems, harg, parseJVal_dumpVal x f (']' :: rest) hfv (by rfl)]
      rfl
  | x, y :: ys, fuel, rest, hf, hr => by
    cases fuel with
    | zero => exact absurd hf (Nat.not_lt_zero _)
    | succ f =>
      have harg : (dumpVal x ++ dumpArrTail (y :: ys)) ++ ']' :: rest =
          dumpVal x ++ (',' :: ' ' :: ((dumpVal y ++ dumpArrTail ys) ++
            ']' :: rest)) := by
        show (dumpVal x ++ (',' :: ' ' :: (dumpVal y ++ dumpArrTail ys))) ++
          ']' :: rest = _
        simp [List.append_assoc]
      have hfx : (dumpVal x).length < f := by
        have h2 : (dumpVal x ++ dumpArrTail (y :: ys)).length =
            (dumpVal x).length + (dumpVal y ++ dumpArrTail ys).length + 2 := by
          show (dumpVal x ++ (',' :: ' ' :: (dumpVal y ++ dumpArrTail ys))).length = _
          simp
          omega
        omega
      have hfy : (dumpVal y ++ dumpArrTail ys).length + 1 < f := by
        have h2 : (dumpVal x ++ dumpArrTail (y :: ys)).length =
            (dumpVal x).length + (dumpVal y ++ dumpArrTail ys).length + 2 := by
          show (dumpVal x ++ (',' :: ' ' :: (dumpVal y ++ dumpArrTail ys))).length = _
          simp
          omega
        omega
      rw [parseJItems, harg, parseJVal_dumpVal x f _ hfx (by rfl)]
      show (match parseJItems f (' ' :: ((dumpVal y ++ dumpArrTail ys) ++
          ']' :: rest)) with
        | some (vs, r2) => some (x :: vs, r2)
        | none => none) = some (x :: y :: ys, rest)
      rw [parseJItems_cons_space, parseJItems_dumpItems y ys f rest hfy hr]
termination_by x xs _ _ _ _ => sizeOf x + sizeOf xs

/-- Parsing a serialised nonempty member list up to the closing brace
recovers the members. -/
theorem parseJMembers_dumpMembers : ∀ (k : List Char) (v : Jval)
    (ms : List (List Char × Jval)) (fuel : Nat) (rest : List Char),
    (dumpStr k ++ ':' :: ' ' :: (dumpVal v ++ dumpObjTail ms)).length + 1 < fuel →
    jDelim rest = true →
    parseJMembers fuel ((dumpStr k ++ ':' :: ' ' :: (dumpVal v ++ dumpObjTail ms)) ++
      '\x7d' :: rest) = some ((k, v) :: ms, rest)
  | k, v, [], fuel, rest, hf, hr => by
    cases fuel with
    | zero => exact absurd hf (Nat.not_lt_zero _)
    | succ f =>
      have harg : (dumpStr k ++ ':' :: ' ' :: (dumpVal v ++ dumpObjTail [])) ++
          '\x7d' :: rest =
          '"' :: (k.flatMap escapeChar ++
            ('"' :: (':' :: ' ' :: (dumpVal v ++ ('\x7d' :: rest))))) := by
        show ('"' :: (k.flatMap escapeChar ++ ['"']) ++
          ':' :: ' ' :: (dumpVal v ++ dumpObjTail [])) ++ '\x7d' :: rest = _
        simp [dumpObjTail, List.append_assoc]
      have hfv : (dumpVal v).length < f := by
        have h2 : (dumpStr k ++ ':' :: ' ' ::
            (dumpVal v ++ dumpObjTail [])).length =
            (dumpStr k).length + (dumpVal v).length + 2 := by
          simp [dumpObjTail]
          omega
        omega
      rw [parseJMembers, harg, skipJWs_cons_nows _ _ (by decide)]
      show (match parseStrBody (k.flatMap escapeChar ++
          ('"' :: (':' :: ' ' :: (dumpVal v ++ ('\x7d' :: rest))))) with
        | some (key, r1) =>
          match skipJWs r1 with
          | ':' :: r2 =>
            match parseJVal f r2 with
            | some (val, r3) =>
              match skipJWs r3 with
              | ',' :: r4 =>
                (match parseJMembers f r4 with
                 | some (ms2, r5) => some ((key, val) :: ms2, r5)
                 | none => none)
              | '\x7d' :: r4 => some ([(key, val)], r4)
              | _ => none
            | none => none
          | _ => none
        | none => none) = some ([(k, v)], rest)
      rw [parseStrBody_escaped k (':' :: ' ' :: (dumpVal v ++ ('\x7d' :: rest)))]
      show (match parseJVal f (' ' :: (dumpVal v ++ ('\x7d' :: rest))) with
        | some (val, r3) =>
          match skipJWs r3 with
          | ',' :: r4 =>
            (match parseJMembers f r4 with
             | some (ms2, r5) => some ((k, val) :: ms2, r5)
             | none => none)
          | '\x7d' :: r4 => some ([(k, val)], r4)
          | _ => none
        | none => none) = some ([(k, v)], rest)
      rw [parseJVal_cons_space, parseJVal_dumpVal v f ('\x7d' :: rest) hfv (by rfl)]
      rfl
  | k, v, (k2, v2) :: ms2, fuel, rest, hf, hr => by
    cases fuel with
    | zero => exact absurd hf (Nat.not_lt_zero _)
    | succ f =>
      have harg : (dumpStr k ++ ':' :: ' ' ::
          (dumpVal v ++ dumpObjTail ((k2, v2) :: ms2))) ++ '\x7d' :: rest =
          '"' :: (k.flatMap escapeChar ++
            ('"' :: (':' :: ' ' :: (dumpVal v ++ (',' :: ' ' ::
              ((dumpStr k2 ++ ':' :: ' ' :: (dumpVal v2 ++ dumpObjTail ms2)) ++
                '\x7d' :: rest)))))) := by
        show ('"' :: (k.flatMap escapeChar ++ ['"']) ++ ':' :: ' ' ::
          (dumpVal v ++ (',' :: ' ' :: (dumpStr k2 ++ ':' :: ' ' ::
            (dumpVal v2 ++ dumpObjTail ms2))))) ++ '\x7d' :: rest = _
        simp [List.append_assoc]
      have hlen : (dumpStr k ++ ':' :: ' ' ::
          (dumpVal v ++ dumpObjTail ((k2, v2) :: ms2))).length =
          (dumpStr k).length + (dumpVal v).length +
            (dumpStr k2 ++ ':' :: ' ' :: (dumpVal v2 ++ dumpObjTail ms2)).length +
            4 := by
        show (dumpStr k ++ ':' :: ' ' :: (dumpVal v ++ (',' :: ' ' ::
          (dumpStr k2 ++ ':' :: ' ' :: (dumpVal v2 ++ dumpObjTail ms2))))).length = _
        simp
        omega
      have hfv : (dumpVal v).length < f := by omega
      have hfm : (dumpStr k2 ++ ':' :: ' ' ::
          (dumpVal v2 ++ dumpObjTail ms2)).length + 1 < f := by omega
      rw [parseJMembers, harg, skipJWs_cons_nows _ _ (by decide)]
      show (match parseStrBody (k.flatMap escapeChar ++
          ('"' :: (':' :: ' ' :: (dumpVal v ++ (',' :: ' ' ::
            ((dumpStr k2 ++ ':' :: ' ' :: (dumpVal v2 ++ dumpObjTail ms2)) ++
              '\x7d' :: rest)))))) with
        | some (key, r1) =>
          match skipJWs r1 with
          | ':' :: r2 =>
            match parseJVal f r2 with
            | some (val, r3) =>
              match skipJWs r3 with
              | ',' :: r4 =>
                (match parseJMembers f r4 with
                 | some (ms3, r5) => some ((key, val) :: ms3, r5)
                 | none => none)
              | '\x7d' :: r4 => some ([(key, val)], r4)
              | _ => none
            | none => none
          | _ => none
        | none => none) = some ((k, v) :: (k2, v2) :: ms2, rest)
      rw [parseStrBody_escaped k]
      show (match parseJVal f (' ' :: (dumpVal v ++ (',' :: ' ' ::
          ((dumpStr k2 ++ ':' :: ' ' :: (dumpVal v2 ++ dumpObjTail ms2)) ++
            '\x7d' :: rest)))) with
        | some (val, r3) =>
          match skipJWs r3 with
          | ',' :: r4 =>
            (match parseJMembers f r4 with
             | some (ms3, r5) => some ((k, val) :: ms3, r5)
             | none => none)
          | '\x7d' :: r4 => some ([(k, val)], r4)
          | _ => none
        | none => none) = some ((k, v) :: (k2, v2) :: ms2, rest)
      rw [parseJVal_cons_space, parseJVal_dumpVal v f _ hfv (by rfl)]
      show (match parseJMembers f (' ' :: ((dumpStr k2 ++ ':' :: ' ' ::
          (dumpVal v2 ++ dumpObjTail ms2)) ++ '\x7d' :: rest)) with
        | some (ms3, r5) => some ((k, v) :: ms3, r5)
        | none => none) = some ((k, v) :: (k2, v2) :: ms2, rest)
      rw [parseJMembers_cons_space,
        parseJMembers_dumpMembers k2 v2 ms2 f rest hfm hr]
termination_by k v ms _ _ _ _ => sizeOf v + sizeOf ms
end

/-! ### C7 — the framing layer -/

/-- `json.loads` of `json.dumps` is the identity. -/
lemma jloads_dumpVal (x : Jval) : jloads (dumpVal x) = some x := by
  have h := parseJVal_dumpVal x ((dumpVal x).length + 1) [] (by omega) (by rfl)
  rw [List.append_nil] at h
  rw [jloads, h]
  rfl

/-- `readLine` walks past a character that is not a newline. -/
lemma readLine_cons_ne (c : Char) (t : List Char) (h : c ≠ '\n') :
    readLine (c :: t) = (c :: (readLine t).1, (readLine t).2) := by
  rw [readLine, if_neg (by simp [h])]

/-- `readLine` splits the stream at the first newline. -/
lemma readLine_append : ∀ (a t : List Char), (∀ c ∈ a, c ≠ '\n') →
    readLine (a ++ '\n' :: t) = (a ++ ['\n'], t)
  | [], t, _ => by rfl
  | c :: a, t, h => by
    have hc : c ≠ '\n' := h c (List.mem_cons_self c a)
    have ih := readLine_append a t (fun d hd => h d (List.mem_cons_of_mem c hd))
    rw [List.cons_append, readLine_cons_ne c _ hc, ih]
    rfl

/-- Stripping a trailing CRLF from a line that otherwise ends in a
non-CRLF character. -/
lemma rstripCRLF_tail (a : List Char) (d : Char) (t : List Char)
    (hrev : a.reverse = d :: t) (hd : (d == '\r' || d == '\n') = false) :
    rstripCRLF (a ++ ['\r', '\n']) = a := by
  rw [rstripCRLF, List.reverse_append,
    show (['\r', '\n'] : List Char).reverse = ['\n', '\r'] from rfl, hrev,
    List.cons_append, List.cons_append, List.nil_append,
    List.dropWhile_cons, if_pos (by decide), List.dropWhile_cons,
    if_pos (by decide), List.dropWhile_cons, if_neg (by simp [hd]),
    ← hrev, List.reverse_reverse]

/-- `startswith` holds on any extension of the prefix itself. -/
lemma hasPref_append : ∀ (p r : List Char), hasPref p (p ++ r) = true
  | [], _ => rfl
  | c :: p, r => by
    rw [List.cons_append, hasPref]
    simp [hasPref_append p r]

/-- `afterColon` on the concrete `Content-Length` header line. -/
lemma afterColon_header (X : List Char) :
    afterColon (chars "Content-Length: " ++ X) = some (' ' :: X) := rfl

/-- Dropping leading whitespace from a run of digits does nothing. -/
lemma dropWhile_pyspace_digits (l : List Char)
    (hd : ∀ c ∈ l, isDig c = true) : l.dropWhile isPySpace = l := by
  cases l with
  | nil => rfl
  | cons d t =>
    obtain ⟨_, _, _, _, _, _, _, _, _, _, _, h12, _, _, _⟩ :=
      isDig_not_special d (hd d (List.mem_cons_self d t))
    rw [List.dropWhile_cons, if_neg (by simp [h12])]

/-- `strip()` of a space followed by digits is the digits. -/
lemma stripWs_space_digits (l : List Char)
    (hd : ∀ c ∈ l, isDig c = true) : stripWs (' ' :: l) = l := by
  rw [stripWs, List.dropWhile_cons, if_pos (by decide),
    dropWhile_pyspace_digits l hd,
    dropWhile_pyspace_digits l.reverse (fun c hc => hd c (List.mem_reverse.mp hc)),
    List.reverse_reverse]

/-- Python `int()` on a nonempty digit run. -/
lemma parsePyInt_digits (d : Char) (t : List Char)
    (hdig : ∀ c ∈ d :: t, isDig c = true) :
    parsePyInt (d :: t) = some ((digitsVal (d :: t) : Int)) := by
  obtain ⟨h1, h2, _⟩ := isDig_not_special d (hdig d (List.mem_cons_self d t))
  rw [parsePyInt, if_neg (by simp [h1]), if_neg (by simp [h2]),
    if_pos (List.all_eq_true.mpr hdig)]

/-- The blank line ending the header block hands back the remembered
length and the rest of the stream. -/
lemma readHeaderLoop_blank (f : Nat) (n : Int) (body : List Char) :
    readHeaderLoop (f + 1) (some n) ('\r' :: '\n' :: body) = some (n, body) := rfl

/-- Reading the header block of a frame yields its `Content-Length` and
leaves exactly the bytes after the blank line. -/
lemma readHeaderLoop_frame (L : Nat) (f : Nat) (body : List Char) :
    readHeaderLoop (f + 2) none (frameHeader L ++ body) =
      some ((L : Int), body) := by
  obtain ⟨hne, hdig, hval⟩ := natDigits_spec L
  have hnolf : ∀ c ∈ chars "Content-Length: " ++ natDigits L ++ ['\r'],
      c ≠ '\n' := by
    intro c hc
    rw [List.append_assoc, List.mem_append, List.mem_append] at hc
    rcases hc with hc | hc | hc
    · have hall : (chars "Content-Length: ").all
          (fun c => !(c == '\n')) = true := by decide
      have := List.all_eq_true.mp hall c hc
      simpa using this
    · obtain ⟨_, _, _, _, _, _, _, _, _, _, _, _, h13, _, _⟩ :=
        isDig_not_special c (hdig c hc)
      exact h13
    · rw [List.mem_singleton] at hc
      subst hc
      decide
  have hs : frameHeader L ++ body =
      (chars "Content-Length: " ++ natDigits L ++ ['\r']) ++ '\n' ::
        ('\r' :: '\n' :: body) := by
    simp [frameHeader, List.append_assoc]
  have hra : (chars "Content-Length: " ++ natDigits L ++ ['\r']) ++ ['\n'] =
      (chars "Content-Length: " ++ natDigits L) ++ ['\r', '\n'] := by
    simp [List.append_assoc]
  obtain ⟨e, r, her⟩ : ∃ e r,
      (chars "Content-Length: " ++ natDigits L).reverse = e :: r := by
    cases hh : (chars "Content-Length: " ++ natDigits L).reverse with
    | nil =>
      rw [List.reverse_eq_nil_iff, List.append_eq_nil] at hh
      exact absurd hh.2 hne
    | cons e r => exact ⟨e, r, rfl⟩
  have he : (e == '\r' || e == '\n') = false := by
    have hmem : e ∈ chars "Content-Length: " ++ natDigits L := by
      rw [← List.mem_reverse, her]
      exact List.mem_cons_self e r
    rw [List.mem_append] at hmem
    rcases hmem with hm | hm
    · have hall : (chars "Content-Length: ").all
          (fun c => !(c == '\r' || c == '\n')) = true := by decide
      have := List.all_eq_true.mp hall e hm
      simpa using this
    · obtain ⟨_, _, _, _, _, _, _, _, _, _, _, _, h13, h14, _⟩ :=
        isDig_not_special e (hdig e hm)
      simp [h13, h14]
  have hrs : rstripCRLF ((chars "Content-Length: " ++ natDigits L ++ ['\r']) ++
      ['\n']) = chars "Content-Length: " ++ natDigits L := by
    rw [hra]
    exact rstripCRLF_tail _ e r her he
  have hhp : hasPref (chars "content-length:")
      (lowerStr (chars "Content-Length: " ++ natDigits L)) = true := by
    have h1 : (chars "Content-Length: ").map Char.toLower =
        chars "content-length:" ++ [' '] := by decide
    rw [lowerStr, List.map_append, h1, List.append_assoc]
    exact hasPref_append _ _
  obtain ⟨d0, t0, ht0⟩ : ∃ d t, natDigits L = d :: t := by
    cases hh : natDigits L with
    | nil => exact absurd hh hne
    | cons d t => exact ⟨d, t, rfl⟩
  have hpi : parsePyInt (stripWs (' ' :: natDigits L)) = some ((L : Int)) := by
    rw [stripWs_space_digits _ hdig, ht0,
      parsePyInt_digits d0 t0 (ht0 ▸ hdig), ← ht0, hval]
  rw [hs, readHeaderLoop, readLine_append _ _ hnolf]
  dsimp only
  rw [if_neg (by simp), hrs]
  rw [if_neg (by
      rw [List.isEmpty_iff]
      intro hx
      rw [List.append_eq_nil] at hx
      exact hne hx.2), if_pos hhp, afterColon_header]
  dsimp only
  rw [hpi]
  dsimp only
  exact readHeaderLoop_blank f (L : Int) body

/-- C7: for every JSON value `x`, framing `x` with a `Content-Length`
header as `_send_framed` writes it and then decoding the frame by the
client's read procedure (read header lines until the blank line, parse
`Content-Length` case-insensitively, read exactly that many bytes, parse
JSON) returns exactly `x`: decode(frame(x)) = x. -/
theorem decodeFramedResponse_sendFramedWrite (x : Jval) :
    decodeFramedResponse (sendFramedWrite x) = some x := by
  have hpos : 0 < (sendFramedWrite x).length := by
    rw [sendFramedWrite, frameHeader]
    simp
  obtain ⟨f, hf⟩ : ∃ f, (sendFramedWrite x).length + 1 = f + 2 :=
    ⟨(sendFramedWrite x).length - 1, by omega⟩
  rw [decodeFramedResponse, hf,
    show sendFramedWrite x = frameHeader (dumpVal x).length ++ dumpVal x from rfl,
    readHeaderLoop_frame]
  dsimp only
  rw [readExact, Int.toNat_natCast, if_neg (lt_irrefl _), List.take_length]
  exact jloads_dumpVal x
